import Mathlib

/-!
# Verification of the confluence-md HTML-to-Markdown conversion core

Shallow embedding of the conversion core of the `confluence-md` repository
(Confluence storage-format HTML to Markdown).  Go strings are modelled as
Lean `String` values; the Go standard-library helpers that the core relies
on (`strings.TrimSpace`, `strings.EqualFold`, `path/filepath.Ext`,
`net/url` escaping, `html` entity unescaping) are given explicit
executable models next to the functions that use them.  The external
generic HTML-to-Markdown engine (`html-to-markdown/v2`) is treated as an
oracle parameter wherever the source calls into it.

Inputs exercised in this development are ASCII, where the ASCII-level
models of the Unicode-aware Go helpers agree with the originals.
-/

namespace ConfluenceMd

/-! ## String utilities (models of the Go standard library helpers) -/

/-- Whitespace recognised by `strings.TrimSpace` / `strings.Fields`
(ASCII fragment of Unicode white space). -/
def isSpaceChar (c : Char) : Bool :=
  c = ' ' || c = '\t' || c = '\n' || c = '\r' || c = '\x0b' || c = '\x0c'

/-- Core of `strings.TrimSpace`. -/
def trimChars (l : List Char) : List Char :=
  ((l.dropWhile isSpaceChar).reverse.dropWhile isSpaceChar).reverse

/-- Model of Go `strings.TrimSpace`. -/
def goTrimSpace (s : String) : String := ⟨trimChars s.data⟩

/-- ASCII lower-casing of one character (model of `unicode.ToLower` on the
ASCII range, which is the range exercised here). -/
def lowerChar (c : Char) : Char :=
  if 'A' ≤ c ∧ c ≤ 'Z' then Char.ofNat (c.toNat + 32) else c

/-- Model of Go `strings.ToLower`. -/
def goToLower (s : String) : String := ⟨s.data.map lowerChar⟩

/-- Model of Go `strings.EqualFold` (simple case folding; coincides with
per-character lower-casing on the ASCII inputs used here). -/
def goEqualFold (s t : String) : Bool :=
  s.data.map lowerChar == t.data.map lowerChar

/-- First occurrence of `pat` in a character list: returns the part
strictly before the occurrence and the part strictly after it. -/
def findSplit (pat : List Char) : List Char → Option (List Char × List Char)
  | [] => if pat.isEmpty then some ([], []) else none
  | c :: rest =>
    if pat.isPrefixOf (c :: rest) then some ([], (c :: rest).drop pat.length)
    else
      match findSplit pat rest with
      | some (pre, post) => some (c :: pre, post)
      | none => none

/-- Substring test used to model `strings.Contains`. -/
def containsSub (s pat : List Char) : Bool := (findSplit pat s).isSome

/-- Model of Go `strings.Contains`. -/
def goContains (s pat : String) : Bool := containsSub s.data pat.data

/-- Model of Go `strings.HasPrefix`. -/
def goStartsWith (s pat : String) : Bool := pat.data.isPrefixOf s.data

/-- Model of Go `strings.HasSuffix`. -/
def goEndsWith (s pat : String) : Bool := pat.data.isSuffixOf s.data

/-- Model of Go `strings.TrimPrefix`. -/
def stripPre (s pat : String) : String :=
  if goStartsWith s pat then ⟨s.data.drop pat.data.length⟩ else s

/-- Model of Go `strings.TrimSuffix`. -/
def stripSuf (s pat : String) : String :=
  if goEndsWith s pat then ⟨s.data.take (s.data.length - pat.data.length)⟩ else s

/-- Scan (over the reversed path) for the extension of the final
slash-separated element; the accumulator rebuilds, in original order, the
characters already passed.  Helper for `filepathExt`. -/
def extAux : List Char → List Char → Option (List Char)
  | [], _ => none
  | c :: rest, acc =>
    if c = '/' then none
    else if c = '.' then some (c :: acc)
    else extAux rest (c :: acc)

/-- Model of Go `path/filepath.Ext`: the suffix beginning at the final dot
in the final slash-separated element of the path, empty when there is no
dot. -/
def filepathExt (p : String) : String :=
  match extAux p.data.reverse [] with
  | some l => ⟨l⟩
  | none => ""

/-! ## Attachment resolver (src/unnamed/part_004, package `attachments`)

The repository snapshot carries two `selectAttachment` implementations:
the scored matcher of `internal/attachments/resolver.go` (src/unnamed/
part_004, exercised by the resolver tests in the same package) and a
reduced exact-title matcher in
`src/internal/converter/plugin/attachments/resolver.go`.  Both are
embedded below. -/

/-- `models.ConfluenceAttachment`: attachment metadata carried by a page. -/
structure ConfluenceAttachment where
  ID : String := ""
  Title : String := ""
  MediaType : String := ""
  FileSize : Int := 0
  DownloadLink : String := ""
  Version : Int := 0
deriving Repr, DecidableEq

/-- `matchesAttachmentFilename` (src/unnamed/part_004 lines 188-202):
case-insensitive title match, with an extension-stripped fallback when the
requested filename carries no dot. -/
def matchesAttachmentFilename (attachmentTitle filename : String) : Bool :=
  if attachmentTitle = "" || filename = "" then false
  else if goEqualFold attachmentTitle filename then true
  else if !(goContains filename ".") then
    goEqualFold (stripSuf attachmentTitle (filepathExt attachmentTitle)) filename
  else false

/-- `attachmentPreferenceScore` (src/unnamed/part_004 lines 204-228).  The
Go `nil`-pointer guard has no counterpart for Lean values. -/
def attachmentPreferenceScore (att : ConfluenceAttachment) : Int :=
  let score : Int := 0
  let mediaType := goToLower att.MediaType
  let score :=
    if goContains mediaType "text" || goContains mediaType "json" then score + 100 else score
  let score := if goStartsWith mediaType "image/" then score - 100 else score
  let ext := goToLower (filepathExt att.Title)
  if ext = ".mmd" || ext = ".mermaid" || ext = ".txt" || ext = ".md" || ext = ".json" then
    score + 80
  else if ext = ".png" || ext = ".jpg" || ext = ".jpeg" || ext = ".gif" || ext = ".svg" then
    score - 50
  else score

/-- The candidate filter of `selectAttachment` (src/unnamed/part_004 lines
157-169): keep title matches, and when a positive revision is requested
drop versioned attachments with a different version. -/
def attachmentCandidates (attachments : List ConfluenceAttachment) (filename : String)
    (revision : Int) : List ConfluenceAttachment :=
  attachments.filter fun a =>
    matchesAttachmentFilename a.Title filename &&
      !(decide (revision > 0) && decide (a.Version > 0) && decide (a.Version ≠ revision))

/-- The best-candidate fold of `selectAttachment` (src/unnamed/part_004
lines 175-183): a later candidate replaces the current best when its score
is strictly higher, or equal with a strictly higher version. -/
def pickBestAttachment : ConfluenceAttachment → List ConfluenceAttachment → ConfluenceAttachment
  | best, [] => best
  | best, c :: cs =>
    if attachmentPreferenceScore c > attachmentPreferenceScore best ∨
        (attachmentPreferenceScore c = attachmentPreferenceScore best ∧
          c.Version > best.Version) then
      pickBestAttachment c cs
    else
      pickBestAttachment best cs

/-- `selectAttachment` (src/unnamed/part_004 lines 156-186). -/
def selectAttachment (attachments : List ConfluenceAttachment) (filename : String)
    (revision : Int) : Option ConfluenceAttachment :=
  match attachmentCandidates attachments filename revision with
  | [] => none
  | best :: rest => some (pickBestAttachment best rest)

/-- The reduced `selectAttachment` of
`src/internal/converter/plugin/attachments/resolver.go` lines 49-58: first
attachment whose title equals the filename case-insensitively; no
extension fallback, no revision filter, no preference scoring. -/
def selectAttachmentSimple (attachments : List ConfluenceAttachment) (filename : String)
    (_revision : Int) : Option ConfluenceAttachment :=
  attachments.find? fun a => goEqualFold a.Title filename

/-- Statement vocabulary for claim C1: `a` beats `b` when `a` scores
strictly higher, or scores equal with at least the version of `b`. -/
def AttachmentBeats (a b : ConfluenceAttachment) : Prop :=
  attachmentPreferenceScore b < attachmentPreferenceScore a ∨
    (attachmentPreferenceScore b = attachmentPreferenceScore a ∧ b.Version ≤ a.Version)

instance (a b : ConfluenceAttachment) : Decidable (AttachmentBeats a b) := by
  unfold AttachmentBeats; exact inferInstance

theorem attachmentBeats_refl (a : ConfluenceAttachment) : AttachmentBeats a a :=
  Or.inr ⟨rfl, le_refl _⟩

theorem attachmentBeats_trans {a b c : ConfluenceAttachment}
    (h₁ : AttachmentBeats a b) (h₂ : AttachmentBeats b c) : AttachmentBeats a c := by
  rcases h₁ with h₁ | ⟨h₁, h₁v⟩ <;> rcases h₂ with h₂ | ⟨h₂, h₂v⟩
  · exact Or.inl (h₂.trans h₁)
  · exact Or.inl (h₂ ▸ h₁)
  · exact Or.inl (h₁ ▸ h₂)
  · exact Or.inr ⟨h₂.trans h₁, h₂v.trans h₁v⟩

theorem pickBestAttachment_cons (best c : ConfluenceAttachment)
    (cs : List ConfluenceAttachment) :
    pickBestAttachment best (c :: cs) =
      if attachmentPreferenceScore c > attachmentPreferenceScore best ∨
          (attachmentPreferenceScore c = attachmentPreferenceScore best ∧
            c.Version > best.Version) then
        pickBestAttachment c cs
      else
        pickBestAttachment best cs := rfl

theorem pickBestAttachment_spec (best : ConfluenceAttachment)
    (cs : List ConfluenceAttachment) :
    pickBestAttachment best cs ∈ best :: cs ∧
      ∀ b ∈ best :: cs, AttachmentBeats (pickBestAttachment best cs) b := by
  induction cs generalizing best with
  | nil =>
    refine ⟨List.mem_singleton_self _, ?_⟩
    intro b hb
    rw [List.mem_singleton] at hb
    exact hb ▸ attachmentBeats_refl best
  | cons c cs ih =>
    by_cases h : attachmentPreferenceScore c > attachmentPreferenceScore best ∨
        (attachmentPreferenceScore c = attachmentPreferenceScore best ∧
          c.Version > best.Version)
    · have hbeats : AttachmentBeats c best := by
        rcases h with h | ⟨h, hv⟩
        · exact Or.inl h
        · exact Or.inr ⟨h.symm, le_of_lt hv⟩
      obtain ⟨hmem, hdom⟩ := ih c
      rw [pickBestAttachment_cons, if_pos h]
      constructor
      · exact List.mem_cons_of_mem _ hmem
      · intro b hb
        rcases List.mem_cons.mp hb with hb | hb
        · exact hb ▸ attachmentBeats_trans (hdom c (List.mem_cons_self _ _)) hbeats
        · exact hdom b hb
    · have hbeats : AttachmentBeats best c := by
        push_neg at h
        obtain ⟨hs, hv⟩ := h
        rcases lt_or_eq_of_le hs with hlt | heq
        · exact Or.inl hlt
        · exact Or.inr ⟨heq, hv heq⟩
      obtain ⟨hmem, hdom⟩ := ih best
      rw [pickBestAttachment_cons, if_neg h]
      constructor
      · rcases List.mem_cons.mp hmem with hm | hm
        · rw [hm]; exact List.mem_cons_self _ _
        · exact List.mem_cons_of_mem _ (List.mem_cons_of_mem _ hm)
      · intro b hb
        rcases List.mem_cons.mp hb with hb | hb
        · exact hb ▸ hdom best (List.mem_cons_self _ _)
        · rcases List.mem_cons.mp hb with hb | hb
          · exact hb ▸ attachmentBeats_trans (hdom best (List.mem_cons_self _ _)) hbeats
          · exact hdom b (List.mem_cons_of_mem _ hb)

/-- C1: resolving `"diagram"` with revision 0 against
`{diagram.png, v5, image/png}` and `{diagram.mmd, v4, text/plain}` selects
the `.mmd` attachment; title matching is case-insensitive; a dotless
filename also matches a title with its trailing extension stripped; and
the selected attachment always beats every candidate on preference score,
ties broken by higher version. -/
theorem c1_attachment_resolution :
    (selectAttachment
        [⟨"", "diagram.png", "image/png", 0, "", 5⟩,
         ⟨"", "diagram.mmd", "text/plain", 0, "", 4⟩] "diagram" 0 =
      some ⟨"", "diagram.mmd", "text/plain", 0, "", 4⟩) ∧
    (∀ title filename : String, title ≠ "" → filename ≠ "" →
      goEqualFold title filename = true →
      matchesAttachmentFilename title filename = true) ∧
    (∀ title filename : String, title ≠ "" → filename ≠ "" →
      goContains filename "." = false →
      goEqualFold (stripSuf title (filepathExt title)) filename = true →
      matchesAttachmentFilename title filename = true) ∧
    (∀ (attachments : List ConfluenceAttachment) (filename : String) (revision : Int)
        (a : ConfluenceAttachment),
      selectAttachment attachments filename revision = some a →
      a ∈ attachmentCandidates attachments filename revision ∧
        ∀ b ∈ attachmentCandidates attachments filename revision, AttachmentBeats a b) := by
  refine ⟨by decide, ?_, ?_, ?_⟩
  · intro title filename h1 h2 hfold
    simp [matchesAttachmentFilename, h1, h2, hfold]
  · intro title filename h1 h2 hc hstrip
    by_cases hf : goEqualFold title filename <;>
      simp [matchesAttachmentFilename, h1, h2, hf, hc, hstrip]
  · intro attachments filename revision a hsel
    unfold selectAttachment at hsel
    rcases hcand : attachmentCandidates attachments filename revision with _ | ⟨best, rest⟩
    · rw [hcand] at hsel; exact absurd hsel (by simp)
    · rw [hcand] at hsel
      simp only [Option.some.injEq] at hsel
      obtain ⟨hmem, hdom⟩ := pickBestAttachment_spec best rest
      exact ⟨hsel ▸ hmem, fun b hb => hsel ▸ hdom b hb⟩

theorem c1_attachment_resolution_witness :
    matchesAttachmentFilename "Diagram.MMD" "diagram.mmd" = true ∧
    matchesAttachmentFilename "diagram.mmd" "diagram" = true ∧
    AttachmentBeats ⟨"", "diagram.mmd", "text/plain", 0, "", 4⟩
      ⟨"", "diagram.png", "image/png", 0, "", 5⟩ :=
  ⟨c1_attachment_resolution.2.1 "Diagram.MMD" "diagram.mmd" (by decide) (by decide) (by decide),
   c1_attachment_resolution.2.2.1 "diagram.mmd" "diagram" (by decide) (by decide)
     (by decide) (by decide),
   (c1_attachment_resolution.2.2.2
       [⟨"", "diagram.png", "image/png", 0, "", 5⟩,
        ⟨"", "diagram.mmd", "text/plain", 0, "", 4⟩] "diagram" 0
       ⟨"", "diagram.mmd", "text/plain", 0, "", 4⟩ (by decide)).2
     ⟨"", "diagram.png", "image/png", 0, "", 5⟩ (by decide)⟩

/-! ## More Go standard-library models -/

/-- One rewriting step bound by fuel; each successful rewrite consumes at
least one character of the remainder, so fuel equal to the length of the
input suffices.  Helper for `goReplaceAll`. -/
def goReplaceAllFuel : Nat → List Char → List Char → List Char → List Char
  | 0, s, _, _ => s
  | fuel + 1, s, pat, rep =>
    match findSplit pat s with
    | none => s
    | some (pre2, post) => pre2 ++ rep ++ goReplaceAllFuel fuel post pat rep

/-- Model of Go `strings.ReplaceAll` (non-overlapping, left to right). -/
def goReplaceAll (s pat rep : String) : String :=
  if pat = "" then s else ⟨goReplaceAllFuel s.data.length s.data pat.data rep.data⟩

/-- Model of Go `html.UnescapeString` restricted to the basic named and
numeric entities exercised by this repository (the full Go entity table is
standard-library data, not repository code). -/
def entStep : List Char → Char × List Char
  | 'a' :: 'm' :: 'p' :: ';' :: r => ('&', r)
  | 'l' :: 't' :: ';' :: r => ('<', r)
  | 'g' :: 't' :: ';' :: r => ('>', r)
  | 'q' :: 'u' :: 'o' :: 't' :: ';' :: r => ('"', r)
  | 'a' :: 'p' :: 'o' :: 's' :: ';' :: r => ('\'', r)
  | '#' :: '3' :: '9' :: ';' :: r => ('\'', r)
  | '#' :: '3' :: '4' :: ';' :: r => ('"', r)
  | r => ('&', r)

/-- Fuel-driven scan; each step consumes at least the head character, so
fuel equal to the input length suffices. -/
def htmlUnescapeFuel : Nat → List Char → List Char
  | 0, l => l
  | _ + 1, [] => []
  | fuel + 1, c :: rest =>
    if c = '&' then
      let p := entStep rest
      p.1 :: htmlUnescapeFuel fuel p.2
    else c :: htmlUnescapeFuel fuel rest

def htmlUnescapeChars (l : List Char) : List Char := htmlUnescapeFuel l.length l

/-- UTF-8 byte sequence of one character (bytes as `Nat` below 256). -/
def utf8Bytes (c : Char) : List Nat :=
  let n := c.toNat
  if n < 128 then [n]
  else if n < 2048 then [192 + n / 64, 128 + n % 64]
  else if n < 65536 then [224 + n / 4096, 128 + n / 64 % 64, 128 + n % 64]
  else [240 + n / 262144, 128 + n / 4096 % 64, 128 + n / 64 % 64, 128 + n % 64]

def upperHexDigit (n : Nat) : Char := "0123456789ABCDEF".data.getD (n % 16) '0'

/-- Bytes `net/url` never escapes: ASCII alphanumerics and `-._~`. -/
def isUnreservedByte (b : Nat) : Bool :=
  (65 ≤ b && b ≤ 90) || (97 ≤ b && b ≤ 122) || (48 ≤ b && b ≤ 57) ||
    b = 45 || b = 95 || b = 46 || b = 126

/-- Reserved bytes kept verbatim in a path segment: `$ & + : = @`
(everything else outside the unreserved set is percent-encoded, in
particular `/ ; , ?`). -/
def pathSegmentKeepByte (b : Nat) : Bool :=
  isUnreservedByte b || b = 36 || b = 38 || b = 43 || b = 58 || b = 61 || b = 64

def escapeByteWith (keep : Nat → Bool) (b : Nat) : List Char :=
  if keep b then [Char.ofNat b] else ['%', upperHexDigit (b / 16), upperHexDigit b]

/-- Model of Go `net/url.PathEscape`. -/
def pathEscape (s : String) : String :=
  ⟨(s.data.flatMap utf8Bytes).flatMap (escapeByteWith pathSegmentKeepByte)⟩

def queryEscapeByte (b : Nat) : List Char :=
  if isUnreservedByte b then [Char.ofNat b]
  else if b = 32 then ['+']
  else ['%', upperHexDigit (b / 16), upperHexDigit b]

/-- Model of Go `net/url.QueryEscape`. -/
def queryEscape (s : String) : String :=
  ⟨(s.data.flatMap utf8Bytes).flatMap queryEscapeByte⟩

/-- Model of Go `strconv.Atoi` digit parsing (overflow ignored: the
revisions exercised are tiny). -/
def parseDigitsAux : List Char → Nat → Option Nat
  | [], acc => some acc
  | c :: rest, acc =>
    if '0' ≤ c ∧ c ≤ '9' then parseDigitsAux rest (acc * 10 + (c.toNat - 48))
    else none

def parseDigits : List Char → Option Nat
  | [] => none
  | l => parseDigitsAux l 0

def goAtoi (s : String) : Option Int :=
  match s.data with
  | '+' :: rest => (parseDigits rest).map Int.ofNat
  | '-' :: rest => (parseDigits rest).map fun n => -(Int.ofNat n)
  | l => (parseDigits l).map Int.ofNat

/-! ## Page model

The `ConfluencePage` model file of `internal/confluence/model` /
`internal/models` is not part of the snapshot (only its tests, in
src/unnamed/part_006, and its construction in
src/internal/confluence/model/api.go are); the structure fields follow
`ConvertAPIPageToModel` and the tests. -/

structure Label where
  ID : String := ""
  Name : String := ""
deriving Repr, DecidableEq

structure User where
  AccountID : String := ""
  DisplayName : String := ""
  Email : String := ""
deriving Repr, DecidableEq

structure ContentStorage where
  Value : String := ""
  Representation : String := ""
deriving Repr, DecidableEq

structure ConfluenceContent where
  Storage : ContentStorage := ⟨"", ""⟩
deriving Repr, DecidableEq

structure ConfluenceMetadata where
  Labels : List Label := []
deriving Repr, DecidableEq

structure ConfluencePage where
  ID : String := ""
  Title : String := ""
  SpaceKey : String := ""
  Version : Int := 0
  Content : ConfluenceContent := ⟨⟨"", ""⟩⟩
  Metadata : ConfluenceMetadata := ⟨[]⟩
  Attachments : List ConfluenceAttachment := []
  CreatedAt : String := ""
  UpdatedAt : String := ""
  CreatedBy : User := ⟨"", "", ""⟩
  UpdatedBy : User := ⟨"", "", ""⟩
deriving Repr, DecidableEq

/-! ## HTML node model (`golang.org/x/net/html.Node`)

`Text`, `Comment` and `Element` nodes are the kinds the conversion core
inspects; a lenient HTML parse represents a CDATA section as a comment
node whose data starts with `[CDATA[`. -/

inductive HtmlNode where
  | text (data : String)
  | comment (data : String)
  | elem (data : String) (attr : List (String × String)) (children : List HtmlNode)
deriving Repr

def HtmlNode.children : HtmlNode → List HtmlNode
  | .elem _ _ cs => cs
  | _ => []

/-- The Go `Node.Data` field: text/comment content, or the element name. -/
def HtmlNode.nodeData : HtmlNode → String
  | .text s => s
  | .comment s => s
  | .elem d _ _ => d

/-- First attribute with the given key (the `for _, attr := range n.Attr`
scans of the handlers). -/
def HtmlNode.attrVal (n : HtmlNode) (key : String) : Option String :=
  match n with
  | .elem _ attrs _ => (attrs.find? fun a => a.1 == key).map Prod.snd
  | _ => none

/-- First attribute with the given key and a non-empty value (the scans of
`handleEmoticon`, which skip empty values). -/
def HtmlNode.attrValNonempty (n : HtmlNode) (key : String) : Option String :=
  match n with
  | .elem _ attrs _ => (attrs.find? fun a => a.1 == key && a.2 != "").map Prod.snd
  | _ => none

def HtmlNode.isElemNamed (n : HtmlNode) (name : String) : Bool :=
  match n with
  | .elem d _ _ => d == name
  | _ => false

/-- Go `html.Render` escaping for text and attribute values. -/
def escapeChar (c : Char) : List Char :=
  if c = '&' then "&amp;".data
  else if c = '\'' then "&#39;".data
  else if c = '<' then "&lt;".data
  else if c = '>' then "&gt;".data
  else if c = '"' then "&#34;".data
  else [c]

def escapeText (s : String) : String := ⟨s.data.flatMap escapeChar⟩

/-- Void elements, rendered self-closing by `html.Render`. -/
def isVoidElem (name : String) : Bool :=
  name = "area" || name = "base" || name = "br" || name = "col" || name = "embed" ||
    name = "hr" || name = "img" || name = "input" || name = "keygen" || name = "link" ||
    name = "meta" || name = "param" || name = "source" || name = "track" || name = "wbr"

mutual

/-- Model of `golang.org/x/net/html.Render`: standard HTML serialization
with entity-escaped text and attribute values, raw comments, and
self-closing void elements. -/
def htmlRender : HtmlNode → String
  | .text s => escapeText s
  | .comment s => "<!--" ++ s ++ "-->"
  | .elem name attrs children =>
    let openTag :=
      "<" ++ name ++
        String.join (attrs.map fun a => " " ++ a.1 ++ "=\"" ++ escapeText a.2 ++ "\"")
    if isVoidElem name then openTag ++ "/>"
    else openTag ++ ">" ++ htmlRenderList children ++ "</" ++ name ++ ">"

def htmlRenderList : List HtmlNode → String
  | [] => ""
  | c :: cs => htmlRender c ++ htmlRenderList cs

end

mutual

/-- Model of goquery `Selection.Text`: concatenated text-node data. -/
def textContent : HtmlNode → String
  | .text s => s
  | .comment _ => ""
  | .elem _ _ cs => textContentList cs

def textContentList : List HtmlNode → String
  | [] => ""
  | c :: cs => textContent c ++ textContentList cs

end

mutual

/-- First node (depth-first, document order, self included) satisfying the
predicate; models goquery `Find(..).First()` on a subtree. -/
def findFirst (pred : HtmlNode → Bool) : HtmlNode → Option HtmlNode
  | .text s => if pred (.text s) then some (.text s) else none
  | .comment s => if pred (.comment s) then some (.comment s) else none
  | .elem d a cs =>
    if pred (.elem d a cs) then some (.elem d a cs) else findFirstList pred cs

def findFirstList (pred : HtmlNode → Bool) : List HtmlNode → Option HtmlNode
  | [] => none
  | c :: cs =>
    match findFirst pred c with
    | some r => some r
    | none => findFirstList pred cs

end

/-! ## The Confluence plugin
(src/unnamed/part_002, package `plugin`; the older generation in
src/unnamed/part_001 differs only where noted)

`ctx.RenderNodes` — the callback into the external generic engine — is an
oracle parameter `r`.  The handlers that the source runs through a
serialize-and-reparse round trip (`html.Render` + goquery) are modelled
structurally on the same subtree. -/

/-- Oracle for the external generic HTML-to-Markdown engine: the Markdown
the engine produces for one node. -/
def RenderFn := HtmlNode → String

/-- Resolver capability (`attachments.Resolver.Resolve`). -/
def ResolverFn := ConfluencePage → String → Int → Except String String

/-- Plugin state: image folder, optional resolver, optional current page
(`nil` interface/pointer values become `none`). -/
structure ConfluencePlugin where
  imageFolder : String := ""
  attachmentResolver : Option ResolverFn := none
  currentPage : Option ConfluencePage := none

/-- Capture scan of `ParseConfluenceImage`'s regular expression
`ri:filename="([^"]+)"`: first position carrying the literal, a non-empty
quote-free capture and a closing quote. -/
def parseImageAux : List Char → Option (List Char)
  | [] => none
  | c :: rest =>
    if "ri:filename=\"".data.isPrefixOf (c :: rest) then
      let after := (c :: rest).drop 13
      let cap := after.takeWhile (· ≠ '"')
      if cap ≠ [] ∧ (after.drop cap.length).head? = some '"' then some cap
      else parseImageAux rest
    else parseImageAux rest

/-- `ParseConfluenceImage` (plugin utils; also `parseConfluenceImage` in
src/internal/converter/utils.go lines 10-17). -/
def ParseConfluenceImage (markup : String) : String :=
  match parseImageAux markup.data with
  | some l => ⟨l⟩
  | none => ""

/-- The filename resolution of `handleImage` (src/unnamed/part_002 lines
304-318): the `ri:filename` attribute, else a regex scan of the rendered
markup. -/
def imageFilename (n : HtmlNode) : String :=
  let filename := (n.attrVal "ri:filename").getD ""
  if filename = "" then ParseConfluenceImage (htmlRender n) else filename

/-- `handleImage` (src/unnamed/part_002 lines 303-331): the text written
to the output for an `ac:image` element. -/
def handleImage (p : ConfluencePlugin) (n : HtmlNode) : String :=
  let filename := imageFilename n
  if filename = "" then "<!-- Image attachment not found -->"
  else
    let localPath := p.imageFolder ++ "/" ++ filename
    "![" ++ filename ++ "](" ++ pathEscape localPath ++ ")"

/-- `handleEmoticon` (src/unnamed/part_002 lines 333-357): written text;
the handler always signals `RenderTryNext`. -/
def handleEmoticon (n : HtmlNode) : String :=
  match n.attrValNonempty "ac:emoji-fallback" with
  | some v => v ++ " "
  | none =>
    match n.attrValNonempty "ac:emoji-shortname" with
    | some v => v ++ " "
    | none =>
      match n.attrValNonempty "ac:name" with
      | some v => ":" ++ v ++ ":"
      | none => ":emoji: "

/-- The `ri:user` scan of `handleLink` (src/unnamed/part_002 lines
675-696). -/
def linkUserAccount : List HtmlNode → Option String
  | [] => none
  | c :: cs =>
    if c.isElemNamed "ri:user" then
      match c.attrVal "ri:account-id" with
      | some id => if id ≠ "" then some id else linkUserAccount cs
      | none => linkUserAccount cs
    else linkUserAccount cs

/-- `handleLink`: written text (empty when the handler signals
`RenderTryNext` for a non-user link). -/
def handleLink (n : HtmlNode) : String :=
  match linkUserAccount n.children with
  | some id => "@user(" ++ id ++ ")"
  | none => ""

/-- `handleTime` (src/unnamed/part_002 lines 741-758): written text
(empty when the handler signals `RenderTryNext`). -/
def handleTime (n : HtmlNode) : String :=
  match n.attrVal "datetime" with
  | some d => if d ≠ "" then d else ""
  | none => ""

/-- `handlePlaceholder` (src/unnamed/part_002 lines 727-739). -/
def handlePlaceholder (n : HtmlNode) : String :=
  let text :=
    match n.children.head? with
    | some (.text s) => goTrimSpace s
    | _ => ""
  if text ≠ "" then "<!-- " ++ text ++ " -->" else ""

/-- `handleInlineComment` (src/unnamed/part_002 lines 698-725). -/
def handleInlineComment (n : HtmlNode) : String :=
  let text :=
    match n.children.head? with
    | some (.text s) => s
    | _ => ""
  let ref := (n.attrVal "ac:ref").getD ""
  (if text ≠ "" then text else "") ++
    (if ref ≠ "" then "<!-- comment-ref: " ++ ref ++ " -->" else "")

/-- `extractMacroParameter` (src/unnamed/part_002 lines 605-611): first
`ac:parameter` descendant named `name`, trimmed text.  The source routes
the node through `html.Render` + goquery; the round trip preserves the
subtree and is modelled as a structural search. -/
def extractMacroParameter (n : HtmlNode) (name : String) : String :=
  match findFirst (fun m => m.isElemNamed "ac:parameter" && m.attrVal "ac:name" == some name) n with
  | some p => goTrimSpace (textContent p)
  | none => ""

/-- `handleMermaidMacro` (src/unnamed/part_002 lines 458-494).  The
goquery parse-error branch of the source cannot fire for an in-memory
subtree and has no counterpart here. -/
def handleMermaidMacro (p : ConfluencePlugin) (n : HtmlNode) : String :=
  let filename := extractMacroParameter n "filename"
  let revisionStr := extractMacroParameter n "revision"
  let revision : Int :=
    if revisionStr ≠ "" then
      match goAtoi (goTrimSpace revisionStr) with
      | some parsed => parsed
      | none => 0
    else 0
  if filename = "" then "<!-- Mermaid macro missing filename -->"
  else
    match p.attachmentResolver with
    | none => "<!-- Mermaid attachment " ++ filename ++ " unavailable -->"
    | some resolver =>
      match p.currentPage with
      | none => "<!-- Mermaid attachment " ++ filename ++ " unavailable -->"
      | some page =>
        match resolver page filename revision with
        | .error err => "<!-- Failed to load mermaid " ++ filename ++ ": " ++ err ++ " -->"
        | .ok diagram =>
          let diagram := goTrimSpace diagram
          if diagram = "" then "<!-- Empty mermaid macro -->"
          else "```mermaid\n" ++ diagram ++ "\n```\n"

/-- One match attempt of `extractLanguageParameter`'s regular expression
`<ac:parameter[^>]*ac:name="language"[^>]*>([^<]+)</ac:parameter>` at a
given position. -/
def tryLangAt (s : List Char) : Option (List Char) :=
  if "<ac:parameter".data.isPrefixOf s then
    let t := s.drop 13
    let region := t.takeWhile (· ≠ '>')
    if containsSub region "ac:name=\"language\"".data then
      match t.drop region.length with
      | '>' :: w =>
        let cap := w.takeWhile (· ≠ '<')
        if cap ≠ [] ∧ "</ac:parameter>".data.isPrefixOf (w.drop cap.length) then some cap
        else none
      | _ => none
    else none
  else none

/-- Leftmost match scan for `extractLanguageParameter`. -/
def findLang : List Char → Option (List Char)
  | [] => none
  | c :: rest =>
    match tryLangAt (c :: rest) with
    | some cap => some cap
    | none => findLang rest

/-- `extractLanguageParameter` (src/internal/converter/utils.go lines
20-27 and the plugin copy). -/
def extractLanguageParameter (rawHTML : String) : String :=
  match findLang rawHTML.data with
  | some cap => ⟨cap⟩
  | none => ""

/-- `extractCodeContent` (src/internal/converter/utils.go lines 30-52):
lazy capture between the first `<ac:plain-text-body>` and the first
following close tag, entity-unescaped, with both comment-mangled and raw
CDATA wrappers stripped. -/
def extractCodeContent (rawHTML : String) : String :=
  match findSplit "<ac:plain-text-body>".data rawHTML.data with
  | none => ""
  | some (_, rest) =>
    match findSplit "</ac:plain-text-body>".data rest with
    | none => ""
    | some (content, _) =>
      let content : String := ⟨htmlUnescapeChars content⟩
      let content := stripPre content "<!--[CDATA["
      let content := stripSuf content "]]-->"
      let content := stripPre content "<![CDATA["
      let content := stripSuf content "]]>"
      content

/-- `extractPlainTextBodyContent` (src/unnamed/part_002 lines 585-603):
prefer the text of a `pre[data-cdata='true']` block inside the first
`ac:plain-text-body`, reversing the CDATA escaping; otherwise fall back to
`extractCodeContent`. -/
def extractPlainTextBodyContent (n : HtmlNode) (rawHTML : String) : String :=
  match findFirst (fun m => m.isElemNamed "ac:plain-text-body") n with
  | none => extractCodeContent rawHTML
  | some ptb =>
    match findFirst (fun m => m.isElemNamed "pre" && m.attrVal "data-cdata" == some "true") ptb with
    | some preTag =>
      let content := textContent preTag
      let content := goReplaceAll content "&lt;" "<"
      let content := goReplaceAll content "&gt;" ">"
      let content := goReplaceAll content "&amp;" "&"
      goTrimSpace content
    | none => extractCodeContent rawHTML

/-- `handleCodeMacro` (src/unnamed/part_002 lines 435-456), over the
rendered markup of the macro node (the goquery `<html><body>` wrapper of
`selection.Html()` carries no `ac:` markup and is immaterial to the
extractors). -/
def handleCodeMacro (n : HtmlNode) : String :=
  let rawHTML := htmlRender n
  let language := extractLanguageParameter rawHTML
  let code := extractPlainTextBodyContent n rawHTML
  let code := if code = "" then extractCodeContent rawHTML else code
  if language ≠ "" then "```" ++ language ++ "\n" ++ code ++ "\n```\n"
  else "```\n" ++ code ++ "\n```\n"

/-- `handleTocMacro` (src/unnamed/part_002 lines 496-515): the second
component is the `tryNext` signal (true exactly when the macro has no
`ac:parameter` child). -/
def handleTocMacro (n : HtmlNode) : String × Bool :=
  let hasParameters := n.children.any fun c => c.isElemNamed "ac:parameter"
  ("<!-- Table of Contents -->", !hasParameters)

/-- The parameter scan of `handleStatusMacro` (src/unnamed/part_002 lines
630-647): later parameters overwrite earlier ones; the raw `Data` of the
first child is read (a tag name when the first child is an element). -/
def statusParams : List HtmlNode → String → String → String × String
  | [], title, colour => (title, colour)
  | c :: cs, title, colour =>
    if c.isElemNamed "ac:parameter" then
      let paramName := (c.attrVal "ac:name").getD ""
      match c.children.head? with
      | some fc =>
        if paramName = "title" then statusParams cs fc.nodeData colour
        else if paramName = "colour" then statusParams cs title fc.nodeData
        else statusParams cs title colour
      | none => statusParams cs title colour
    else statusParams cs title colour

/-- `handleStatusMacro` (src/unnamed/part_002 lines 626-672). -/
def handleStatusMacro (n : HtmlNode) : String :=
  let (title, colour) := statusParams n.children "" ""
  let emoji :=
    if goToLower colour = "red" then "🔴"
    else if goToLower colour = "yellow" then "🟡"
    else if goToLower colour = "green" then "🟢"
    else if goToLower colour = "blue" then "🔵"
    else if goToLower colour = "grey" ∨ goToLower colour = "gray" then "⚪"
    else ""
  if title ≠ "" then
    if emoji ≠ "" then emoji ++ " **" ++ title ++ "**"
    else "**[" ++ title ++ "]**"
  else ""

/-- `findRichTextBodyNode` (src/unnamed/part_002 lines 565-583). -/
def findRichTextBodyNode (n : HtmlNode) : Option HtmlNode :=
  findFirst (fun m => m.isElemNamed "ac:rich-text-body") n

/-- The per-child loop of `convertNestedHTML` (src/unnamed/part_002 lines
541-559): trimmed non-blank text kept, empty `<p/>` terminators skipped,
elements rendered through the engine oracle. -/
def convertNestedChildren (r : RenderFn) : List HtmlNode → String
  | [] => ""
  | c :: cs =>
    (match c with
     | .text s => let t := goTrimSpace s; if t ≠ "" then t else ""
     | .elem "p" _ [] => ""
     | .elem d a kids => r (.elem d a kids)
     | .comment _ => "") ++ convertNestedChildren r cs

/-- `convertNestedHTML` (src/unnamed/part_002 lines 530-562). -/
def convertNestedHTML (r : RenderFn) (n : HtmlNode) : String :=
  match findRichTextBodyNode n with
  | none => ""
  | some rtb => goTrimSpace (convertNestedChildren r rtb.children)

/-- Model of Go `strings.TrimRight(s, "\n")`. -/
def trimRightNl (s : String) : String :=
  ⟨(s.data.reverse.dropWhile (· = '\n')).reverse⟩

/-- `handleBlockquoteMacro` (src/unnamed/part_002 lines 410-432). -/
def handleBlockquoteMacro (r : RenderFn) (n : HtmlNode) (emoji label : String) : String :=
  let content := convertNestedHTML r n
  let prefixStr := emoji ++ " **" ++ label ++ ":**"
  if content = "" then "> " ++ prefixStr
  else
    let lines := content.splitOn "\n"
    if lines.length > 1 then
      trimRightNl ("> " ++ prefixStr ++ "\n" ++
        String.join (lines.map fun line =>
          if goTrimSpace line ≠ "" then "> " ++ line ++ "\n" else ">\n"))
    else "> " ++ prefixStr ++ " " ++ content

/-- `handleExpandMacro` (src/unnamed/part_002 lines 517-527). -/
def handleExpandMacro (r : RenderFn) (n : HtmlNode) : String :=
  let content := convertNestedHTML r n
  if content ≠ "" then content ++ "\n\n" else ""

/-- `handleDetailsMacro` (src/unnamed/part_002 lines 614-623). -/
def handleDetailsMacro (r : RenderFn) (n : HtmlNode) : String :=
  let content := convertNestedHTML r n
  if content = "" then "" else content ++ "\n\n"

/-- `handleMacro` (src/unnamed/part_002 lines 359-408): dispatch on the
`ac:name` attribute; the second component is the `tryNext` signal. -/
def handleMacro (r : RenderFn) (p : ConfluencePlugin) (n : HtmlNode) : String × Bool :=
  let macroName := (n.attrVal "ac:name").getD ""
  let macroName := if macroName = "" then "unknown" else macroName
  match macroName with
  | "info" => (handleBlockquoteMacro r n "ℹ️" "Info", false)
  | "warning" => (handleBlockquoteMacro r n "⚠️" "Warning", false)
  | "note" => (handleBlockquoteMacro r n "📝" "Note", false)
  | "tip" => (handleBlockquoteMacro r n "💡" "Tip", false)
  | "code" => (handleCodeMacro n, false)
  | "mermaid-cloud" => (handleMermaidMacro p n, false)
  | "expand" => (handleExpandMacro r n, false)
  | "toc" => handleTocMacro n
  | "details" => (handleDetailsMacro r n, false)
  | "status" => (handleStatusMacro n, false)
  | "children" => ("<!-- Child Pages -->", false)
  | other => ("<!-- Unsupported macro: " ++ other ++ " -->", false)

mutual

/-- The sibling walk of `flattenCellContent` (src/unnamed/part_002 lines
125-173); `flattenNode` carries whether a following sibling exists (the
`child.NextSibling != nil` test of the `p` case). -/
def flattenList (r : RenderFn) (p : ConfluencePlugin) : List HtmlNode → String
  | [] => ""
  | c :: cs => flattenNode r p (!cs.isEmpty) c ++ flattenList r p cs

def flattenNode (r : RenderFn) (p : ConfluencePlugin) (hasNext : Bool) : HtmlNode → String
  | .text s => s
  | .comment _ => ""
  | .elem d a cs =>
    if d = "h1" ∨ d = "h2" ∨ d = "h3" ∨ d = "h4" ∨ d = "h5" ∨ d = "h6" then
      "<strong>" ++ flattenList r p cs ++ "</strong>"
    else if d = "br" then "<br>"
    else if d = "p" then
      if !cs.isEmpty then flattenList r p cs ++ (if hasNext then " " else "") else ""
    else if d = "strong" ∨ d = "b" ∨ d = "em" ∨ d = "i" ∨ d = "code" ∨ d = "a" then
      htmlRender (.elem d a cs)
    else if d = "ac:structured-macro" then (handleMacro r p (.elem d a cs)).1
    else if d = "ac:emoticon" then handleEmoticon (.elem d a cs)
    else if d = "ac:link" then handleLink (.elem d a cs)
    else if d = "time" then handleTime (.elem d a cs)
    else if d = "ac:inline-comment-marker" then flattenList r p cs
    else if d = "ac:placeholder" then handlePlaceholder (.elem d a cs)
    else flattenList r p cs

end

/-- The whitespace-run collapse of `strings.Fields`. -/
def fieldsAux : List Char → List Char → List (List Char)
  | [], acc => if acc = [] then [] else [acc.reverse]
  | c :: rest, acc =>
    if isSpaceChar c then
      if acc = [] then fieldsAux rest [] else acc.reverse :: fieldsAux rest []
    else fieldsAux rest (c :: acc)

/-- Model of Go `strings.Fields`. -/
def goFields (s : String) : List String := (fieldsAux s.data []).map fun l => ⟨l⟩

/-- `getCellHTMLContent` (src/unnamed/part_002 lines 109-122): flatten,
drop newlines and carriage returns, collapse whitespace runs. -/
def getCellHTMLContent (r : RenderFn) (p : ConfluencePlugin) (cell : HtmlNode) : String :=
  let content := flattenList r p cell.children
  let content := goReplaceAll content "\n" " "
  let content := goReplaceAll content "\r" ""
  String.intercalate " " (goFields content)

mutual

/-- `containsBrTags` (src/unnamed/part_002 lines 88-106). -/
def containsBrTags : HtmlNode → Bool
  | .text _ => false
  | .comment _ => false
  | .elem d _ cs => (d == "br") || containsBrList cs

def containsBrList : List HtmlNode → Bool
  | [] => false
  | c :: cs => containsBrTags c || containsBrList cs

end

/-- The child scan of `cellHasComplexContent` (src/unnamed/part_002 lines
58-85), carrying the running block-element count. -/
def cellComplexAux : List HtmlNode → Nat → Bool
  | [], _ => false
  | c :: rest, blockCount =>
    match c with
    | .elem d a cs =>
      if d = "ul" ∨ d = "ol" ∨ d = "div" ∨ d = "blockquote" ∨ d = "pre" ∨ d = "table" then
        true
      else if d = "p" ∨ d = "h1" ∨ d = "h2" ∨ d = "h3" ∨ d = "h4" ∨ d = "h5" ∨ d = "h6" then
        if blockCount + 1 > 1 then true
        else if containsBrTags (.elem d a cs) then true
        else cellComplexAux rest (blockCount + 1)
      else if d = "br" then true
      else cellComplexAux rest blockCount
    | _ => cellComplexAux rest blockCount

/-- `cellHasComplexContent` (src/unnamed/part_002 lines 57-85). -/
def cellHasComplexContent (cell : HtmlNode) : Bool :=
  cellComplexAux cell.children 0

/-- The whitespace-text skip of the simple-cell branch of `handleTable`
(src/unnamed/part_002 lines 224-227). -/
def firstNonWsChild : List HtmlNode → Option HtmlNode
  | [] => none
  | c :: cs =>
    match c with
    | .text s => if goTrimSpace s = "" then firstNonWsChild cs else some (.text s)
    | other => some other

/-- One cell of `handleTable` (src/unnamed/part_002 lines 214-239):
complex cells flattened, simple cells rendered through the engine oracle
and trimmed, empty and `&nbsp;` cells normalised to a single space. -/
def processCell (r : RenderFn) (p : ConfluencePlugin) (cell : HtmlNode) : String :=
  let cellContent :=
    if cellHasComplexContent cell then getCellHTMLContent r p cell
    else
      match firstNonWsChild cell.children with
      | some fc => goTrimSpace (r fc)
      | none => ""
  if cellContent = "" ∨ cellContent = "&nbsp;" then " " else cellContent

/-- The cell loop of one `tr` of `handleTable` (src/unnamed/part_002 lines
200-241): accumulated cells, `hasOnlyHeaders` and `hasSomeTd` flags. -/
def processRowAux (r : RenderFn) (p : ConfluencePlugin) :
    List HtmlNode → List String → Bool → Bool → List String × Bool × Bool
  | [], row, hasOnlyHeaders, hasSomeTd => (row, hasOnlyHeaders, hasSomeTd)
  | c :: rest, row, hasOnlyHeaders, hasSomeTd =>
    match c with
    | .elem d a cs =>
      let hasSomeTd := if d = "td" then true else hasSomeTd
      let hasOnlyHeaders := if d = "td" then false else hasOnlyHeaders
      if d = "td" ∨ d = "th" then
        processRowAux r p rest (row ++ [processCell r p (.elem d a cs)]) hasOnlyHeaders hasSomeTd
      else processRowAux r p rest row hasOnlyHeaders hasSomeTd
    | _ => processRowAux r p rest row hasOnlyHeaders hasSomeTd

/-- The row loop of `handleTable` (src/unnamed/part_002 lines 195-248):
non-`tr` children skipped, empty rows dropped, a row marked a header row
exactly when all its cells are headers and none is a `td`. -/
def processRows (r : RenderFn) (p : ConfluencePlugin) :
    List HtmlNode → List (List String) × List Bool
  | [] => ([], [])
  | tr :: rest =>
    match tr with
    | .elem "tr" _ cs =>
      let (row, flags) := processRowAux r p cs [] true false
      let (rs, hs) := processRows r p rest
      if row ≠ [] then (row :: rs, (flags.1 && !flags.2) :: hs) else (rs, hs)
    | _ => processRows r p rest

/-- The tbody search of `handleTable` (src/unnamed/part_002 lines
182-188). -/
def findTbody : List HtmlNode → Option HtmlNode
  | [] => none
  | c :: cs => if c.isElemNamed "tbody" then some c else findTbody cs

def maxColsOf (rows : List (List String)) : Nat :=
  rows.foldl (fun m row => max m row.length) 0

/-- One emitted table line: `| c₁ | c₂ | … |` (src/unnamed/part_002 lines
280-287). -/
def rowLine (row : List String) : String :=
  "| " ++ String.intercalate " | " row ++ " |\n"

/-- Concatenation of a list of strings. -/
def strJoin : List String → String
  | [] => ""
  | s :: l => s ++ strJoin l

/-- The separator line `|---|---|…` (src/unnamed/part_002 lines
291-295). -/
def sepLine (maxCols : Nat) : String :=
  "|" ++ strJoin (List.replicate maxCols "---|") ++ "\n"

/-- The writing loop of `handleTable` (src/unnamed/part_002 lines
278-297): a separator after row 0 when row 0 is a header row or when no
row is a header row. -/
def writeRowsAux (hs0 : Bool) (hasHeaderRow : Bool) (maxCols : Nat) :
    List (List String) → Nat → String
  | [], _ => ""
  | row :: rest, i =>
    rowLine row ++
      (if (i = 0 ∧ hs0 = true) ∨ (i = 0 ∧ hasHeaderRow = false) then sepLine maxCols else "") ++
      writeRowsAux hs0 hasHeaderRow maxCols rest (i + 1)

/-- `handleTable` (src/unnamed/part_002 lines 176-301): `none` models
`RenderTryNext` (no tbody, or no rows). -/
def handleTable (r : RenderFn) (p : ConfluencePlugin) (n : HtmlNode) : Option String :=
  match findTbody n.children with
  | none => none
  | some tbody =>
    let (rows, hs) := processRows r p tbody.children
    if rows.isEmpty then none
    else
      let maxCols := maxColsOf rows
      let rows := rows.map fun row => row ++ List.replicate (maxCols - row.length) " "
      let hasHeaderRow := hs.any id
      some (writeRowsAux (hs.headD false) hasHeaderRow maxCols rows 0 ++ "\n")

/-! ## Claim C5: complex-cell classification -/

/-- Claim vocabulary: the element kinds the claim calls always complex. -/
def specIsAlwaysComplex (c : HtmlNode) : Bool :=
  c.isElemNamed "ul" || c.isElemNamed "ol" || c.isElemNamed "div" ||
    c.isElemNamed "blockquote" || c.isElemNamed "pre" || c.isElemNamed "table"

/-- Claim vocabulary: block-level text elements (paragraph/heading). -/
def specIsBlockText (c : HtmlNode) : Bool :=
  c.isElemNamed "p" || c.isElemNamed "h1" || c.isElemNamed "h2" || c.isElemNamed "h3" ||
    c.isElemNamed "h4" || c.isElemNamed "h5" || c.isElemNamed "h6"

theorem cellComplexAux_eq (cs : List HtmlNode) (k : Nat) (hk : k ≤ 1) :
    cellComplexAux cs k =
      (cs.any specIsAlwaysComplex ||
        decide (k + cs.countP (fun c => specIsBlockText c) > 1) ||
        cs.any (fun c => specIsBlockText c && containsBrTags c) ||
        cs.any (fun c => c.isElemNamed "br")) := by
  induction cs generalizing k with
  | nil => simp [cellComplexAux]; omega
  | cons c rest ih =>
    match c with
    | .text s =>
      simp [cellComplexAux, specIsAlwaysComplex, specIsBlockText, HtmlNode.isElemNamed,
        List.countP_cons, ih k hk]
    | .comment s =>
      simp [cellComplexAux, specIsAlwaysComplex, specIsBlockText, HtmlNode.isElemNamed,
        List.countP_cons, ih k hk]
    | .elem d a kids =>
      simp only [cellComplexAux]
      by_cases h1 : d = "ul" ∨ d = "ol" ∨ d = "div" ∨ d = "blockquote" ∨ d = "pre" ∨
          d = "table"
      · rw [if_pos h1]
        have hac : specIsAlwaysComplex (.elem d a kids) = true := by
          rcases h1 with h | h | h | h | h | h <;>
            simp [specIsAlwaysComplex, HtmlNode.isElemNamed, h]
        simp [List.any_cons, hac]
      · rw [if_neg h1]
        by_cases h2 : d = "p" ∨ d = "h1" ∨ d = "h2" ∨ d = "h3" ∨ d = "h4" ∨ d = "h5" ∨
            d = "h6"
        · have hbl : specIsBlockText (.elem d a kids) = true := by
            rcases h2 with h | h | h | h | h | h | h <;>
              simp [specIsBlockText, HtmlNode.isElemNamed, h]
          have hac : specIsAlwaysComplex (.elem d a kids) = false := by
            rcases h2 with h | h | h | h | h | h | h <;>
              simp [specIsAlwaysComplex, HtmlNode.isElemNamed, h]
          have hbr : (HtmlNode.elem d a kids).isElemNamed "br" = false := by
            rcases h2 with h | h | h | h | h | h | h <;> simp [HtmlNode.isElemNamed, h]
          rw [if_pos h2]
          by_cases hkk : k + 1 > 1
          · rw [if_pos hkk]
            have hcount : k + (HtmlNode.elem d a kids :: rest).countP
                (fun c => specIsBlockText c) > 1 := by
              simp [List.countP_cons, hbl]
              omega
            simp [hcount]
          · rw [if_neg hkk]
            by_cases hcbr : containsBrTags (.elem d a kids)
            · rw [if_pos hcbr]
              have : (HtmlNode.elem d a kids :: rest).any
                  (fun c => specIsBlockText c && containsBrTags c) = true := by
                simp [List.any_cons, hbl, hcbr]
              simp [this]
            · rw [if_neg hcbr, ih (k + 1) (by omega)]
              have harith : k + 1 + rest.countP (fun c => specIsBlockText c) =
                  k + ((HtmlNode.elem d a kids :: rest).countP fun c => specIsBlockText c) := by
                simp [List.countP_cons, hbl]
                omega
              rw [harith]
              simp only [List.any_cons, hac, hbl, hbr,
                Bool.false_or, Bool.true_and]
              rw [Bool.eq_false_iff.mpr hcbr]
              simp
        · rw [if_neg h2]
          have hbl : specIsBlockText (.elem d a kids) = false := by
            push_neg at h2
            obtain ⟨e1, e2, e3, e4, e5, e6, e7⟩ := h2
            simp [specIsBlockText, HtmlNode.isElemNamed, e1, e2, e3, e4, e5, e6, e7]
          have hac : specIsAlwaysComplex (.elem d a kids) = false := by
            push_neg at h1
            obtain ⟨e1, e2, e3, e4, e5, e6⟩ := h1
            simp [specIsAlwaysComplex, HtmlNode.isElemNamed, e1, e2, e3, e4, e5, e6]
          by_cases h3 : d = "br"
          · rw [if_pos h3]
            have : (HtmlNode.elem d a kids :: rest).any
                (fun c => c.isElemNamed "br") = true := by
              simp [List.any_cons, HtmlNode.isElemNamed, h3]
            simp [this]
          · rw [if_neg h3, ih k hk]
            have hbr : (HtmlNode.elem d a kids).isElemNamed "br" = false := by
              simp [HtmlNode.isElemNamed, h3]
            simp [List.any_cons, hac, hbl, hbr, List.countP_cons]

/-- C5: `cellHasComplexContent` holds exactly when the cell's direct
element children include an always-complex element (list, div,
blockquote, pre, nested table), or more than one paragraph/heading, or a
paragraph/heading containing a `br` anywhere inside it, or a `br` at the
cell's own level; in particular two paragraphs, a list, or a bare `br`
are complex, and a single break-free paragraph is simple. -/
theorem c5_complex_cell_classification :
    (∀ cell : HtmlNode,
      cellHasComplexContent cell =
        (cell.children.any specIsAlwaysComplex ||
          decide (cell.children.countP (fun c => specIsBlockText c) > 1) ||
          cell.children.any (fun c => specIsBlockText c && containsBrTags c) ||
          cell.children.any (fun c => c.isElemNamed "br"))) ∧
    cellHasComplexContent
      (.elem "td" [] [.elem "p" [] [.text "First"], .elem "p" [] [.text "Second"]]) = true ∧
    cellHasComplexContent
      (.elem "td" [] [.elem "ul" [] [.elem "li" [] [.text "Item"]]]) = true ∧
    cellHasComplexContent
      (.elem "td" [] [.text "Line", .elem "br" [] [], .text "Break"]) = true ∧
    cellHasComplexContent (.elem "td" [] [.elem "p" [] [.text "Content"]]) = false := by
  refine ⟨?_, by decide, by decide, by decide, by decide⟩
  intro cell
  have := cellComplexAux_eq cell.children 0 (by omega)
  simpa [cellHasComplexContent] using this

/-! ## Claim C4: header-row classification -/

theorem processRowAux_flags (r : RenderFn) (p : ConfluencePlugin)
    (cs : List HtmlNode) (row : List String) (oh st : Bool) :
    (processRowAux r p cs row oh st).2.1 =
        (oh && !(cs.any fun c => c.isElemNamed "td")) ∧
      (processRowAux r p cs row oh st).2.2 =
        (st || (cs.any fun c => c.isElemNamed "td")) := by
  induction cs generalizing row oh st with
  | nil => simp [processRowAux]
  | cons c rest ih =>
    match c with
    | .text s => simpa [processRowAux, HtmlNode.isElemNamed] using ih row oh st
    | .comment s => simpa [processRowAux, HtmlNode.isElemNamed] using ih row oh st
    | .elem d a kids =>
      by_cases htd : d = "td"
      · subst htd
        have h := ih (row ++ [processCell r p (.elem "td" a kids)]) false true
        simp [processRowAux, HtmlNode.isElemNamed, h.1, h.2]
      · by_cases hth : d = "th"
        · subst hth
          have h := ih (row ++ [processCell r p (.elem "th" a kids)]) oh st
          simp [processRowAux, HtmlNode.isElemNamed, h.1, h.2]
        · have h1 : (d == "td") = false := beq_eq_false_iff_ne.mpr htd
          have h2 : (d == "th") = false := beq_eq_false_iff_ne.mpr hth
          have h := ih row oh st
          simp [processRowAux, HtmlNode.isElemNamed, htd, hth, h1, h2, h.1, h.2]

theorem all_th_iff_no_td (cs : List HtmlNode) :
    ((cs.filter fun c => c.isElemNamed "td" || c.isElemNamed "th").all
        fun c => c.isElemNamed "th") =
      !(cs.any fun c => c.isElemNamed "td") := by
  induction cs with
  | nil => rfl
  | cons c rest ih =>
    match c with
    | .text s =>
      simp only [List.filter_cons, List.any_cons,
        show (HtmlNode.text s).isElemNamed "td" = false from rfl,
        show (HtmlNode.text s).isElemNamed "th" = false from rfl]
      simpa using ih
    | .comment s =>
      simp only [List.filter_cons, List.any_cons,
        show (HtmlNode.comment s).isElemNamed "td" = false from rfl,
        show (HtmlNode.comment s).isElemNamed "th" = false from rfl]
      simpa using ih
    | .elem d a kids =>
      by_cases htd : d = "td"
      · subst htd
        have hcond : ((HtmlNode.elem "td" a kids).isElemNamed "td" ||
            (HtmlNode.elem "td" a kids).isElemNamed "th") = true := rfl
        rw [List.filter_cons, if_pos hcond, List.all_cons, List.any_cons,
          show (HtmlNode.elem "td" a kids).isElemNamed "th" = false from rfl,
          show (HtmlNode.elem "td" a kids).isElemNamed "td" = true from rfl,
          Bool.false_and, Bool.true_or, Bool.not_true]
      · by_cases hth : d = "th"
        · subst hth
          simp only [List.filter_cons, List.all_cons, List.any_cons,
            show (HtmlNode.elem "th" a kids).isElemNamed "td" = false from rfl,
            show (HtmlNode.elem "th" a kids).isElemNamed "th" = true from rfl]
          simpa using ih
        · have h1 : ((HtmlNode.elem d a kids).isElemNamed "td") = false := by
            simpa [HtmlNode.isElemNamed] using htd
          have h2 : ((HtmlNode.elem d a kids).isElemNamed "th") = false := by
            simpa [HtmlNode.isElemNamed] using hth
          simp only [List.filter_cons, List.all_cons, List.any_cons, h1, h2]
          simpa using ih

/-- C4: a row processed by the table handler is classified as a header
row exactly when every one of its cells (its `td`/`th` element children)
is a `th`; any `td` demotes the whole row.  The concrete conjunct checks a
mixed `th`/`td` row against a pure `th` row. -/
theorem c4_header_row_classification :
    (∀ (r : RenderFn) (p : ConfluencePlugin) (cs : List HtmlNode),
      (processRowAux r p cs [] true false).1 ≠ [] →
      ((processRowAux r p cs [] true false).2.1 &&
          !(processRowAux r p cs [] true false).2.2) =
        ((cs.filter fun c => c.isElemNamed "td" || c.isElemNamed "th").all
          fun c => c.isElemNamed "th")) ∧
    (processRows textContent ⟨"", none, none⟩
        [.elem "tr" [] [.elem "th" [] [.text "h"], .elem "td" [] [.text "d"]]]).2 =
      [false] ∧
    (processRows textContent ⟨"", none, none⟩
        [.elem "tr" [] [.elem "th" [] [.text "h"], .elem "th" [] [.text "g"]]]).2 =
      [true] := by
  refine ⟨?_, by decide, by decide⟩
  intro r p cs _
  obtain ⟨h1, h2⟩ := processRowAux_flags r p cs [] true false
  rw [h1, h2, all_th_iff_no_td]
  simp

theorem c4_header_row_classification_witness :
    ((processRowAux textContent ⟨"", none, none⟩
          [HtmlNode.elem "th" [] [.text "h"], HtmlNode.elem "td" [] [.text "d"]]
          [] true false).2.1 &&
        !(processRowAux textContent ⟨"", none, none⟩
          [HtmlNode.elem "th" [] [.text "h"], HtmlNode.elem "td" [] [.text "d"]]
          [] true false).2.2) =
      (([HtmlNode.elem "th" [] [.text "h"], HtmlNode.elem "td" [] [.text "d"]].filter
          fun c => c.isElemNamed "td" || c.isElemNamed "th").all
        fun c => c.isElemNamed "th") :=
  c4_header_row_classification.1 textContent ⟨"", none, none⟩
    [HtmlNode.elem "th" [] [.text "h"], HtmlNode.elem "td" [] [.text "d"]] (by decide)

/-! ## Claim C3: table separator emission -/

theorem writeRowsAux_tail (hs0 flag : Bool) (mc : Nat) (rows : List (List String))
    (i : Nat) (hi : i ≠ 0) :
    writeRowsAux hs0 flag mc rows i = strJoin (rows.map rowLine) := by
  induction rows generalizing i with
  | nil => simp [writeRowsAux, strJoin]
  | cons row rest ih =>
    have hcond : ¬((i = 0 ∧ hs0 = true) ∨ (i = 0 ∧ flag = false)) := by tauto
    simp only [writeRowsAux, if_neg hcond, List.map_cons, strJoin]
    rw [ih (i + 1) (by omega)]
    simp [String.append_assoc]

theorem writeRowsAux_head (hs0 flag : Bool) (mc : Nat) (row : List String)
    (rest : List (List String)) :
    writeRowsAux hs0 flag mc (row :: rest) 0 =
      rowLine row ++ (if hs0 = true ∨ flag = false then sepLine mc else "") ++
        strJoin (rest.map rowLine) := by
  simp only [writeRowsAux]
  rw [writeRowsAux_tail hs0 flag mc rest 1 (by omega)]
  simp [String.append_assoc]

/-- C3 (amended): when the custom table handler emits a table, the output
is the padded row lines with the dash separator inserted exactly once —
after the first row — when the first row is a header row or when no row is
a header row; when the first row is not a header row but a later row is,
no separator is inserted anywhere. -/
theorem c3_table_separator_amended (r : RenderFn) (p : ConfluencePlugin)
    (n : HtmlNode) (out : String) (h : handleTable r p n = some out) :
    ∃ tbody row rest,
      findTbody n.children = some tbody ∧
      (processRows r p tbody.children).1 = row :: rest ∧
      out =
        rowLine (row ++ List.replicate (maxColsOf (row :: rest) - row.length) " ") ++
          (if (processRows r p tbody.children).2.headD false = true ∨
              (processRows r p tbody.children).2.any id = false then
            sepLine (maxColsOf (row :: rest))
          else "") ++
          strJoin ((rest.map fun rw =>
            rw ++ List.replicate (maxColsOf (row :: rest) - rw.length) " ").map rowLine) ++
          "\n" := by
  unfold handleTable at h
  rcases ht : findTbody n.children with _ | tbody
  · rw [ht] at h; exact absurd h (by simp)
  · rw [ht] at h
    dsimp only at h
    rcases hpr : processRows r p tbody.children with ⟨rows, hs⟩
    rw [hpr] at h
    dsimp only at h
    rcases rows with _ | ⟨row, rest⟩
    · simp at h
    · simp only [List.isEmpty_cons, Bool.false_eq_true, if_false,
        Option.some.injEq] at h
      refine ⟨tbody, row, rest, rfl, by rw [hpr], ?_⟩
      rw [hpr]
      simp only [List.map_cons] at h
      rw [writeRowsAux_head] at h
      rw [← h]

theorem c3_table_separator_amended_witness :
    ∃ tbody row rest,
      findTbody (HtmlNode.elem "table" []
          [.elem "tbody" [] [
            .elem "tr" [] [.elem "th" [] [.text "h"]],
            .elem "tr" [] [.elem "td" [] [.text "d"]]]]).children = some tbody ∧
      (processRows textContent ⟨"", none, none⟩ tbody.children).1 = row :: rest ∧
      ("| h |\n|---|\n| d |\n\n" : String) =
        rowLine (row ++ List.replicate (maxColsOf (row :: rest) - row.length) " ") ++
          (if (processRows textContent ⟨"", none, none⟩ tbody.children).2.headD false = true ∨
              (processRows textContent ⟨"", none, none⟩ tbody.children).2.any id = false then
            sepLine (maxColsOf (row :: rest))
          else "") ++
          strJoin ((rest.map fun rw =>
            rw ++ List.replicate (maxColsOf (row :: rest) - rw.length) " ").map rowLine) ++
          "\n" :=
  c3_table_separator_amended textContent ⟨"", none, none⟩
    (HtmlNode.elem "table" []
      [.elem "tbody" [] [
        .elem "tr" [] [.elem "th" [] [.text "h"]],
        .elem "tr" [] [.elem "td" [] [.text "d"]]]])
    "| h |\n|---|\n| d |\n\n" (by decide)

/-- C3 counterexample: a table whose first row is a data row and whose
second row is a header row reaches the handler and yields at least one
row, yet the emitted output contains no dash separator at all — the claim
that exactly one separator line is always emitted fails here. -/
theorem c3_separator_missing_counterexample :
    handleTable textContent ⟨"", none, none⟩
        (HtmlNode.elem "table" []
          [.elem "tbody" [] [
            .elem "tr" [] [.elem "td" [] [.text "a"]],
            .elem "tr" [] [.elem "th" [] [.text "b"]]]]) =
      some "| a |\n| b |\n\n" ∧
    goContains "| a |\n| b |\n\n" "---" = false := by
  exact ⟨by decide, by decide⟩

/-! ## Claim C2: mermaid macro placeholders -/

/-- A `mermaid-cloud` structured-macro node carrying a filename
parameter. -/
def mermaidMacroNode (filename : String) : HtmlNode :=
  .elem "ac:structured-macro" [("ac:name", "mermaid-cloud")]
    [.elem "ac:parameter" [("ac:name", "filename")] [.text filename]]

/-- A `mermaid-cloud` structured-macro node with no parameters. -/
def mermaidMacroBare : HtmlNode :=
  .elem "ac:structured-macro" [("ac:name", "mermaid-cloud")] []

theorem extractMacroParameter_mermaid_filename (filename : String) :
    extractMacroParameter (mermaidMacroNode filename) "filename" = goTrimSpace filename := by
  simp [extractMacroParameter, mermaidMacroNode, findFirst, findFirstList,
    HtmlNode.isElemNamed, HtmlNode.attrVal, textContent, textContentList]

theorem extractMacroParameter_mermaid_revision (filename : String) :
    extractMacroParameter (mermaidMacroNode filename) "revision" = "" := by
  simp [extractMacroParameter, mermaidMacroNode, findFirst, findFirstList,
    HtmlNode.isElemNamed, HtmlNode.attrVal]

/-- C2 (amended): a missing filename parameter yields its own comment; a
missing resolver and a missing current page yield one and the same
"unavailable" comment naming the filename (distinct from the
missing-filename comment, but not from each other); a resolver error
yields an error comment naming the failure; blank resolved content yields
the "empty" comment; and otherwise a fenced `mermaid` block holds the
trimmed resolved content. -/
theorem c2_mermaid_macro_amended :
    ∀ folder filename : String, goTrimSpace filename = filename → filename ≠ "" →
    ∀ (page : ConfluencePage) (res : ResolverFn) (e c : String),
      handleMermaidMacro ⟨folder, none, some page⟩ (mermaidMacroNode filename) =
          "<!-- Mermaid attachment " ++ filename ++ " unavailable -->" ∧
      handleMermaidMacro ⟨folder, some res, none⟩ (mermaidMacroNode filename) =
          "<!-- Mermaid attachment " ++ filename ++ " unavailable -->" ∧
      handleMermaidMacro ⟨folder, some res, some page⟩ mermaidMacroBare =
          "<!-- Mermaid macro missing filename -->" ∧
      handleMermaidMacro ⟨folder, none, none⟩ mermaidMacroBare =
          "<!-- Mermaid macro missing filename -->" ∧
      handleMermaidMacro ⟨folder, some fun _ _ _ => Except.error e, some page⟩
          (mermaidMacroNode filename) =
          "<!-- Failed to load mermaid " ++ filename ++ ": " ++ e ++ " -->" ∧
      (goTrimSpace c = "" →
        handleMermaidMacro ⟨folder, some fun _ _ _ => Except.ok c, some page⟩
            (mermaidMacroNode filename) = "<!-- Empty mermaid macro -->") ∧
      (goTrimSpace c ≠ "" →
        handleMermaidMacro ⟨folder, some fun _ _ _ => Except.ok c, some page⟩
            (mermaidMacroNode filename) =
          "```mermaid\n" ++ goTrimSpace c ++ "\n```\n") ∧
      "<!-- Mermaid macro missing filename -->" ≠
        "<!-- Mermaid attachment " ++ filename ++ " unavailable -->" := by
  intro folder filename hfn hne page res e c
  have hf := extractMacroParameter_mermaid_filename filename
  have hr := extractMacroParameter_mermaid_revision filename
  rw [hfn] at hf
  refine ⟨?_, ?_, ?_, ?_, ?_, ?_, ?_, ?_⟩
  · simp [handleMermaidMacro, hf, hr, hne]
  · simp [handleMermaidMacro, hf, hr, hne]
  · simp [handleMermaidMacro, extractMacroParameter, mermaidMacroBare, findFirst,
      findFirstList, HtmlNode.isElemNamed, HtmlNode.attrVal]
  · simp [handleMermaidMacro, extractMacroParameter, mermaidMacroBare, findFirst,
      findFirstList, HtmlNode.isElemNamed, HtmlNode.attrVal]
  · simp [handleMermaidMacro, hf, hr, hne]
  · intro hc
    simp [handleMermaidMacro, hf, hr, hne, hc]
  · intro hc
    simp [handleMermaidMacro, hf, hr, hne, hc]
  · intro heq
    have h14 := congrArg (fun s => s.data.take 14) heq
    simp only [String.data_append, List.append_assoc] at h14
    rw [List.take_append_of_le_length (by decide)] at h14
    exact absurd h14 (by decide)

theorem c2_mermaid_macro_amended_witness :
    handleMermaidMacro ⟨"images", some fun _ _ _ => Except.error "boom", some {}⟩
        (mermaidMacroNode "diagram") =
      "<!-- Failed to load mermaid " ++ "diagram" ++ ": " ++ "boom" ++ " -->" ∧
    handleMermaidMacro ⟨"images", some fun _ _ _ => Except.ok "graph TD;", some {}⟩
        (mermaidMacroNode "diagram") =
      "```mermaid\n" ++ goTrimSpace "graph TD;" ++ "\n```\n" :=
  ⟨(c2_mermaid_macro_amended "images" "diagram" (by decide) (by decide) {}
      (fun _ _ _ => Except.ok "x") "boom" "graph TD;").2.2.2.2.1,
   (c2_mermaid_macro_amended "images" "diagram" (by decide) (by decide) {}
      (fun _ _ _ => Except.ok "x") "boom" "graph TD;").2.2.2.2.2.2.1 (by decide)⟩

/-- C2 counterexample: with filename `diagram`, the missing-resolver
placeholder and the missing-current-page placeholder are the same comment
text, so the three missing-data placeholders are not pairwise
different. -/
theorem c2_mermaid_placeholder_collision :
    handleMermaidMacro ⟨"images", none, some {}⟩ (mermaidMacroNode "diagram") =
      handleMermaidMacro ⟨"images", some fun _ _ _ => Except.ok "graph TD;", none⟩
        (mermaidMacroNode "diagram") := rfl

/-! ## Claim C10: image link target escaping -/

theorem upperHexDigit_ne_slash (k : Nat) : upperHexDigit k ≠ '/' := by
  unfold upperHexDigit
  have h : k % 16 < 16 := Nat.mod_lt _ (by omega)
  set m := k % 16 with hm
  interval_cases m <;> decide

theorem escapeByte_no_slash (b : Nat) : '/' ∉ escapeByteWith pathSegmentKeepByte b := by
  unfold escapeByteWith
  by_cases hk : pathSegmentKeepByte b = true
  · rw [if_pos hk]
    have hb : b < 128 := by
      simp [pathSegmentKeepByte, isUnreservedByte] at hk
      omega
    interval_cases b <;> revert hk <;> decide
  · rw [if_neg hk]
    intro hmem
    simp only [List.mem_cons, List.not_mem_nil, or_false] at hmem
    rcases hmem with h | h | h
    · exact absurd h (by decide)
    · exact upperHexDigit_ne_slash (b / 16) h.symm
    · exact upperHexDigit_ne_slash b h.symm

theorem pathEscape_no_slash (s : String) : '/' ∉ (pathEscape s).data := by
  intro hmem
  have : '/' ∈ (s.data.flatMap utf8Bytes).flatMap (escapeByteWith pathSegmentKeepByte) := hmem
  rw [List.mem_flatMap] at this
  obtain ⟨b, _, hb⟩ := this
  exact escapeByte_no_slash b hb

/-- C10: for a non-empty resolved filename the image handler emits
`![filename](target)` with `target` the path-segment-escaped
`imageFolder/filename`; the escaping turns the path separator into `%2F`
(concretely `images%2Fdiagram.png`) and the target never contains a
literal `/`. -/
theorem c10_image_path_escaping :
    (∀ (p : ConfluencePlugin) (n : HtmlNode), imageFilename n ≠ "" →
      handleImage p n =
        "![" ++ imageFilename n ++ "](" ++
          pathEscape (p.imageFolder ++ "/" ++ imageFilename n) ++ ")") ∧
    (∀ s : String, '/' ∉ (pathEscape s).data) ∧
    handleImage ⟨"images", none, none⟩
        (.elem "ac:image" [("ri:filename", "diagram.png")] []) =
      "![diagram.png](images%2Fdiagram.png)" := by
  refine ⟨?_, pathEscape_no_slash, by decide⟩
  intro p n h
  simp [handleImage, h]

theorem c10_image_path_escaping_witness :
    handleImage ⟨"images", none, none⟩
        (.elem "ac:image" [] [.elem "ri:attachment" [("ri:filename", "pic 1.png")] []]) =
      "![" ++
        imageFilename
          (.elem "ac:image" [] [.elem "ri:attachment" [("ri:filename", "pic 1.png")] []]) ++
        "](" ++
        pathEscape ("images" ++ "/" ++
          imageFilename
            (.elem "ac:image" [] [.elem "ri:attachment" [("ri:filename", "pic 1.png")] []])) ++
        ")" :=
  c10_image_path_escaping.1 ⟨"images", none, none⟩
    (.elem "ac:image" [] [.elem "ri:attachment" [("ri:filename", "pic 1.png")] []])
    (by decide)

/-! ## Document assembly (src/internal/converter/converter.go)

The three postprocessing regular expressions are modelled by direct
scanners with the Go regexp (RE2 leftmost, preference-order) semantics.
Scanners that restart after a match carry explicit fuel; every successful
step consumes at least one input character, so fuel equal to the input
length makes the fuel bound unreachable. -/

/-- Whitespace matched by the regexp class `\s` (`[\t\n\f\r ]`). -/
def isRegexSpace (c : Char) : Bool :=
  c = ' ' || c = '\t' || c = '\n' || c = '\x0c' || c = '\r'

/-- The collapse of `\n{3,}` to a blank line (converter.go line 89): a
maximal newline run of three or more becomes exactly two. -/
def collapseNlFuel : Nat → List Char → List Char
  | 0, s => s
  | fuel + 1, s =>
    match s with
    | [] => []
    | '\n' :: rest =>
      let run := rest.takeWhile (· = '\n')
      let rest2 := rest.drop run.length
      if run.length + 1 ≥ 3 then '\n' :: '\n' :: collapseNlFuel fuel rest2
      else '\n' :: (run ++ collapseNlFuel fuel rest2)
    | c :: rest => c :: collapseNlFuel fuel rest

def collapseNewlines (s : String) : String := ⟨collapseNlFuel s.data.length s.data⟩

/-- One attempt of `fixMarkdownLinks`' regular expression
`\[([^\]]+)\]\(/wiki/spaces/([^/]+)/pages/(\d+)/[^)]+\)` at a position;
returns the replacement `[$1](confluence://pageId/$3)` and the remainder
after the match.  Each capture class excludes its delimiter, so matching
is deterministic. -/
def linkTryAt (s : List Char) : Option (List Char × List Char) :=
  match s with
  | '[' :: t =>
    let c1 := t.takeWhile (· ≠ ']')
    if c1 = [] then none
    else
      let t1 := t.drop c1.length
      if "](/wiki/spaces/".data.isPrefixOf t1 then
        let t2 := t1.drop 15
        let c2 := t2.takeWhile (· ≠ '/')
        if c2 = [] then none
        else
          let t3 := t2.drop c2.length
          if "/pages/".data.isPrefixOf t3 then
            let t4 := t3.drop 7
            let c3 := t4.takeWhile fun c => '0' ≤ c ∧ c ≤ '9'
            if c3 = [] then none
            else
              match t4.drop c3.length with
              | '/' :: t6 =>
                let c4 := t6.takeWhile (· ≠ ')')
                if c4 = [] then none
                else
                  match t6.drop c4.length with
                  | ')' :: t7 =>
                    some ('[' :: c1 ++ "](confluence://pageId/".data ++ c3 ++ [')'], t7)
                  | _ => none
              | _ => none
          else none
      else none
  | _ => none

def fixLinksFuel : Nat → List Char → List Char
  | 0, s => s
  | fuel + 1, s =>
    match s with
    | [] => []
    | c :: rest =>
      match linkTryAt (c :: rest) with
      | some (rep, t7) => rep ++ fixLinksFuel fuel t7
      | none => c :: fixLinksFuel fuel rest

/-- `fixMarkdownLinks` (src/internal/converter/converter.go lines
139-145). -/
def fixMarkdownLinks (markdown : String) : String :=
  ⟨fixLinksFuel markdown.data.length markdown.data⟩

/-- The list-marker alternation `(?:[-*+]\s|\d+\.\s)`. -/
def matchNumMarker (s : List Char) : Option (List Char × List Char) :=
  let ds := s.takeWhile fun c => '0' ≤ c ∧ c ≤ '9'
  if ds = [] then none
  else
    match s.drop ds.length with
    | '.' :: w :: rest => if isRegexSpace w then some (ds ++ ['.', w], rest) else none
    | _ => none

def matchListMarker (s : List Char) : Option (List Char × List Char) :=
  match s with
  | c :: d :: rest =>
    if (c = '-' ∨ c = '*' ∨ c = '+') ∧ isRegexSpace d then some ([c, d], rest)
    else matchNumMarker (c :: d :: rest)
  | _ => none

/-- Newline positions within a whitespace run (ascending). -/
def nlPositionsAux : List Char → Nat → List Nat
  | [], _ => []
  | c :: rest, i =>
    if c = '\n' then i :: nlPositionsAux rest (i + 1) else nlPositionsAux rest (i + 1)

/-- Continuation of the nested-list pattern after choosing which newline
the middle `\n\s*\n` ends at: `\s{2,}` must swallow the whole following
whitespace run (a marker never starts with whitespace) and be at least
two characters, then a marker follows. -/
def listTryTail (t4 : List Char) (j : Nat) : Option (List Char × List Char) :=
  let rest := t4.drop (j + 1)
  let r := rest.takeWhile isRegexSpace
  if r.length ≥ 2 then
    match matchListMarker (rest.drop r.length) with
    | some (mk2, t6) => some (r ++ mk2, t6)
    | none => none
  else none

def firstSomeDesc (f : Nat → Option (List Char × List Char)) :
    List Nat → Option (List Char × List Char)
  | [] => none
  | j :: js =>
    match f j with
    | some x => some x
    | none => firstSomeDesc f js

/-- One attempt of `fixNestedListSpacing`'s regular expression
`(\n\s*M[^\n]*)\n\s*\n(\s{2,}M)` (with `M` the marker alternation) at a
position; greedy preference tries the latest possible middle newline
first.  Returns the replacement `$1\n$2` and the remainder. -/
def listTryAt (s : List Char) : Option (List Char × List Char) :=
  match s with
  | '\n' :: t =>
    let ws1 := t.takeWhile isRegexSpace
    let t1 := t.drop ws1.length
    match matchListMarker t1 with
    | none => none
    | some (mk, t2) =>
      let lineRest := t2.takeWhile (· ≠ '\n')
      let t3 := t2.drop lineRest.length
      match t3 with
      | '\n' :: t4 =>
        let ws2 := t4.takeWhile isRegexSpace
        match firstSomeDesc (listTryTail t4) (nlPositionsAux ws2 0).reverse with
        | some (g2, t6) =>
          some (('\n' :: (ws1 ++ mk ++ lineRest)) ++ '\n' :: g2, t6)
        | none => none
      | _ => none
  | _ => none

/-- One `ReplaceAllString` pass of the nested-list pattern. -/
def fixListFuel : Nat → List Char → List Char
  | 0, s => s
  | fuel + 1, s =>
    match s with
    | [] => []
    | c :: rest =>
      match listTryAt (c :: rest) with
      | some (rep, t6) => rep ++ fixListFuel fuel t6
      | none => c :: fixListFuel fuel rest

/-- The fixpoint recursion of `fixNestedListSpacing`
(src/internal/converter/converter.go lines 148-157): each rewrite removes
at least one character, so fuel equal to the initial length makes the
bound unreachable. -/
def fixNestedListSpacingFuel : Nat → String → String
  | 0, s => s
  | fuel + 1, markdown =>
    let result : String := ⟨fixListFuel markdown.data.length markdown.data⟩
    if result ≠ markdown then fixNestedListSpacingFuel fuel result else result

def fixNestedListSpacing (markdown : String) : String :=
  fixNestedListSpacingFuel markdown.data.length markdown

/-- `postprocessMarkdown` (src/internal/converter/converter.go lines
87-101): newline collapse, nested-list spacing fix, internal-link
rewrite, trim. -/
def postprocessMarkdown (markdown : String) : String :=
  let markdown := collapseNewlines markdown
  let markdown := fixNestedListSpacing markdown
  let markdown := fixMarkdownLinks markdown
  goTrimSpace markdown

/-- The CDATA escaping of `preprocessCDATA` (`&`, `<`, `>`, in that
order). -/
def cdataEscape (content : String) : String :=
  let content := goReplaceAll content "&" "&amp;"
  let content := goReplaceAll content "<" "&lt;"
  goReplaceAll content ">" "&gt;"

def preprocessFuel : Nat → List Char → List Char
  | 0, s => s
  | fuel + 1, s =>
    match findSplit "<![CDATA[".data s with
    | none => s
    | some (pre2, rest) =>
      match findSplit "]]>".data rest with
      | none => s
      | some (content, post) =>
        pre2 ++ ("<pre data-cdata='true'>" ++ cdataEscape ⟨content⟩ ++ "</pre>").data ++
          preprocessFuel fuel post

/-- `preprocessCDATA` (src/internal/converter/converter.go lines
159-176): every `<![CDATA[…]]>` section (lazy capture) becomes an escaped
`<pre data-cdata='true'>` block. -/
def preprocessCDATA (html : String) : String := ⟨preprocessFuel html.data.length html.data⟩

/-- The `FindAllString` scan of the image regular expression
`<ac:image[^>]*>[\s\S]*?</ac:image>` (non-overlapping, left to
right). -/
def acImageMatchesFuel : Nat → List Char → List (List Char)
  | 0, _ => []
  | fuel + 1, s =>
    match findSplit "<ac:image".data s with
    | none => []
    | some (_, rest) =>
      let region := rest.takeWhile (· ≠ '>')
      match rest.drop region.length with
      | '>' :: rest2 =>
        match findSplit "</ac:image>".data rest2 with
        | none => []
        | some (mid, post) =>
          ("<ac:image".data ++ region ++ '>' :: (mid ++ "</ac:image>".data)) ::
            acImageMatchesFuel fuel post
      | _ => []

/-- `ImageRef` (src/internal/converter/model/markdown.go): content type
and size are filled in by the external downloader after conversion. -/
structure ImageRef where
  OriginalURL : String := ""
  LocalPath : String := ""
  FileName : String := ""
  ContentType : String := ""
  Size : Int := 0
deriving Repr, DecidableEq

/-- `extractImageReferences` (src/internal/converter/converter.go lines
104-136): one reference per matched `ac:image` element with a resolvable
filename. -/
def extractImageReferences (imageFolder html pageID baseURL : String) : List ImageRef :=
  (acImageMatchesFuel html.data.length html.data).filterMap fun imageHTML =>
    let fileName := ParseConfluenceImage ⟨imageHTML⟩
    if fileName = "" then none
    else
      let encodedFilename := queryEscape fileName
      let actualURL := stripSuf baseURL "/" ++ "/wiki/download/attachments/" ++ pageID ++
        "/" ++ encodedFilename
      let localPath := imageFolder ++ "/" ++ fileName
      some ⟨actualURL, localPath, fileName, "", 0⟩

/-- Modelled from the spec: `net/url.Parse` failure on the inputs the
model file's tests exercise — a URL whose scheme part (the text before a
`:` that precedes any `/`, `?` or `#`) is empty or starts with a
non-letter does not parse (`"::"`, `"://bad"`); other inputs parse. -/
def urlParseOk (s : String) : Bool :=
  let scheme := s.data.takeWhile fun c => c ≠ ':' ∧ c ≠ '/' ∧ c ≠ '?' ∧ c ≠ '#'
  match s.data.drop scheme.length with
  | ':' :: _ =>
    match scheme.head? with
    | some c => c.isAlpha
    | none => false
  | _ => true

/-- Modelled from the spec: `ConfluenceAttachment.Validate` of the page
model file (not under src; reconstructed from spec §3 and
`TestConfluenceAttachmentValidate` in src/unnamed/part_006): non-empty
id, title and media type, positive size, non-empty parseable download
link. -/
def ConfluenceAttachment.Validate (a : ConfluenceAttachment) : Except String Unit :=
  if a.ID = "" then .error "attachment ID cannot be empty"
  else if a.Title = "" then .error "attachment title cannot be empty"
  else if a.MediaType = "" then .error "attachment media type cannot be empty"
  else if a.FileSize ≤ 0 then .error "attachment file size must be greater than 0"
  else if a.DownloadLink = "" then .error "attachment download link cannot be empty"
  else if !urlParseOk a.DownloadLink then .error ("invalid download link: " ++ a.DownloadLink)
  else .ok ()

def validateAttachments : List ConfluenceAttachment → Except String Unit
  | [] => .ok ()
  | a :: rest =>
    match a.Validate with
    | .error e => .error ("invalid attachment: " ++ e)
    | .ok _ => validateAttachments rest

/-- Modelled from the spec: `ConfluencePage.Validate` of the page model
file (not under src; reconstructed from spec §3 and
`TestConfluencePageValidate` in src/unnamed/part_006): non-empty id,
title, space key and storage body, and well-formed attachments. -/
def ConfluencePage.Validate (p : ConfluencePage) : Except String Unit :=
  if p.ID = "" then .error "page ID cannot be empty"
  else if p.Title = "" then .error "page title cannot be empty"
  else if p.SpaceKey = "" then .error "space key cannot be empty"
  else if p.Content.Storage.Value = "" then .error "page content cannot be empty"
  else validateAttachments p.Attachments

/-- Modelled from the spec: `ConfluencePage.GetURL` of the page model
file (not under src; reconstructed from `TestConfluencePageGetURL` and
`TestNewMarkdownDocument`): `{base}/wiki/spaces/{space}/pages/{id}/{title
path-escaped}`, failing on an unparseable base URL. -/
def ConfluencePage.GetURL (p : ConfluencePage) (baseURL : String) : Except String String :=
  if !urlParseOk baseURL then .error ("invalid base URL: " ++ baseURL)
  else
    .ok (stripSuf baseURL "/" ++ "/wiki/spaces/" ++ p.SpaceKey ++ "/pages/" ++ p.ID ++
      "/" ++ pathEscape p.Title)

/-- Modelled from the spec: label name projection of the page model
file (per `TestGetLabelNames`). -/
def ConfluencePage.GetLabelNames (p : ConfluencePage) : List String :=
  p.Metadata.Labels.map fun l => l.Name

/-- `ConfluenceRef` (src/internal/converter/model/markdown.go). -/
structure ConfluenceRef where
  PageID : String := ""
  SpaceKey : String := ""
  Version : Int := 0
  URL : String := ""
deriving Repr, DecidableEq

/-- `Frontmatter` (src/internal/converter/model/markdown.go); the
timestamp is kept opaque as a string, and the open `Custom` map as an
association list. -/
structure Frontmatter where
  Title : String := ""
  Author : String := ""
  Date : String := ""
  Labels : List String := []
  Confluence : ConfluenceRef := ⟨"", "", 0, ""⟩
  Custom : List (String × String) := []
deriving Repr, DecidableEq

/-- `MarkdownDocument` (src/internal/converter/model/markdown.go). -/
structure MarkdownDocument where
  Frontmatter : Frontmatter := ⟨"", "", "", [], ⟨"", "", 0, ""⟩, []⟩
  Content : String := ""
  Images : List ImageRef := []
deriving Repr, DecidableEq

/-- `NewMarkdownDocument` (src/internal/converter/model/markdown.go lines
81-105). -/
def NewMarkdownDocument (page : ConfluencePage) (baseURL : String) :
    Except String MarkdownDocument :=
  match page.GetURL baseURL with
  | .error e => .error ("failed to generate page URL: " ++ e)
  | .ok pageURL =>
    .ok ⟨⟨page.Title, page.CreatedBy.DisplayName, page.UpdatedAt, page.GetLabelNames,
      ⟨page.ID, page.SpaceKey, page.Version, pageURL⟩, []⟩, "", []⟩

/-- Oracle for the external generic engine's `ConvertString`: produced
Markdown plus an optional engine error. -/
structure MdEngine where
  run : String → String × Option String

/-- `convertHtml` (src/internal/converter/converter.go lines 75-84): the
engine error is logged and discarded — the function always returns the
postprocessed Markdown and a nil error. -/
def convertHtml (eng : MdEngine) (html : String) : String :=
  let processedHTML := preprocessCDATA html
  postprocessMarkdown (eng.run processedHTML).1

/-- `ConvertPage` (src/internal/converter/converter.go lines 48-72):
validate, build the document shell, render (engine failures swallowed by
`convertHtml`), extract image references.  The `SetCurrentPage` mutation
configures the plugin inside the engine and is part of the engine
oracle here. -/
def ConvertPage (imageFolder : String) (eng : MdEngine) (page : ConfluencePage)
    (baseURL : String) : Except String MarkdownDocument :=
  match page.Validate with
  | .error e => .error ("invalid page: " ++ e)
  | .ok _ =>
    match NewMarkdownDocument page baseURL with
    | .error e => .error ("failed to create markdown document: " ++ e)
    | .ok doc =>
      let htmlContent := page.Content.Storage.Value
      let markdown := convertHtml eng htmlContent
      let imageRefs := extractImageReferences imageFolder htmlContent
        doc.Frontmatter.Confluence.PageID baseURL
      .ok ⟨doc.Frontmatter, markdown, imageRefs⟩

/-! ## Claim C6: validation fail-fast -/

/-- C6: a page failing validation makes `ConvertPage` return the error
naming the problem and no document, identically for every rendering
engine (so before any rendering); a page passing validation converts
successfully for every engine, including engines that report render
errors (swallowed by `convertHtml`).  The concrete conjuncts check the
five validation failures. -/
theorem c6_validation_fail_fast :
    (∀ (imageFolder : String) (eng : MdEngine) (page : ConfluencePage) (baseURL e : String),
      page.Validate = .error e →
      ConvertPage imageFolder eng page baseURL = .error ("invalid page: " ++ e)) ∧
    (∀ (imageFolder : String) (eng : MdEngine) (page : ConfluencePage) (baseURL : String)
        (doc : MarkdownDocument),
      page.Validate = .ok () →
      NewMarkdownDocument page baseURL = .ok doc →
      ConvertPage imageFolder eng page baseURL =
        .ok ⟨doc.Frontmatter, convertHtml eng page.Content.Storage.Value,
          extractImageReferences imageFolder page.Content.Storage.Value
            doc.Frontmatter.Confluence.PageID baseURL⟩) ∧
    ConfluencePage.Validate
        ⟨"", "Sample", "SPACE", 1, ⟨⟨"<p>content</p>", ""⟩⟩, ⟨[]⟩, [], "", "",
          ⟨"", "", ""⟩, ⟨"", "", ""⟩⟩ = .error "page ID cannot be empty" ∧
    ConfluencePage.Validate
        ⟨"123", "", "SPACE", 1, ⟨⟨"<p>content</p>", ""⟩⟩, ⟨[]⟩, [], "", "",
          ⟨"", "", ""⟩, ⟨"", "", ""⟩⟩ = .error "page title cannot be empty" ∧
    ConfluencePage.Validate
        ⟨"123", "Sample", "", 1, ⟨⟨"<p>content</p>", ""⟩⟩, ⟨[]⟩, [], "", "",
          ⟨"", "", ""⟩, ⟨"", "", ""⟩⟩ = .error "space key cannot be empty" ∧
    ConfluencePage.Validate
        ⟨"123", "Sample", "SPACE", 1, ⟨⟨"", ""⟩⟩, ⟨[]⟩, [], "", "",
          ⟨"", "", ""⟩, ⟨"", "", ""⟩⟩ = .error "page content cannot be empty" ∧
    ConfluencePage.Validate
        ⟨"123", "Sample", "SPACE", 1, ⟨⟨"<p>content</p>", ""⟩⟩, ⟨[]⟩,
          [⟨"", "", "", 0, "", 0⟩], "", "", ⟨"", "", ""⟩, ⟨"", "", ""⟩⟩ =
      .error ("invalid attachment: " ++ "attachment ID cannot be empty") := by
  refine ⟨?_, ?_, rfl, rfl, rfl, rfl, rfl⟩
  · intro imageFolder eng page baseURL e h
    simp [ConvertPage, h]
  · intro imageFolder eng page baseURL doc h1 h2
    simp [ConvertPage, h1, h2]

theorem c6_validation_fail_fast_witness :
    ConvertPage "images" ⟨fun _ => ("", some "render boom")⟩
        ⟨"", "Sample", "SPACE", 1, ⟨⟨"<p>content</p>", ""⟩⟩, ⟨[]⟩, [], "", "",
          ⟨"", "", ""⟩, ⟨"", "", ""⟩⟩ "https://example.atlassian.net" =
      .error ("invalid page: " ++ "page ID cannot be empty") ∧
    ConvertPage "images" ⟨fun _ => ("", some "render boom")⟩
        ⟨"123", "Sample", "SPACE", 1, ⟨⟨"<p>content</p>", ""⟩⟩, ⟨[]⟩, [], "", "",
          ⟨"", "", ""⟩, ⟨"", "", ""⟩⟩ "https://example.atlassian.net" =
      .ok ⟨⟨"Sample", "", "", [],
          ⟨"123", "SPACE", 1,
            "https://example.atlassian.net/wiki/spaces/SPACE/pages/123/Sample"⟩, []⟩,
        convertHtml ⟨fun _ => ("", some "render boom")⟩ "<p>content</p>",
        extractImageReferences "images" "<p>content</p>" "123"
          "https://example.atlassian.net"⟩ :=
  ⟨c6_validation_fail_fast.1 "images" ⟨fun _ => ("", some "render boom")⟩
      ⟨"", "Sample", "SPACE", 1, ⟨⟨"<p>content</p>", ""⟩⟩, ⟨[]⟩, [], "", "",
        ⟨"", "", ""⟩, ⟨"", "", ""⟩⟩ "https://example.atlassian.net"
      "page ID cannot be empty" rfl,
   c6_validation_fail_fast.2.1 "images" ⟨fun _ => ("", some "render boom")⟩
      ⟨"123", "Sample", "SPACE", 1, ⟨⟨"<p>content</p>", ""⟩⟩, ⟨[]⟩, [], "", "",
        ⟨"", "", ""⟩, ⟨"", "", ""⟩⟩ "https://example.atlassian.net"
      ⟨⟨"Sample", "", "", [],
          ⟨"123", "SPACE", 1,
            "https://example.atlassian.net/wiki/spaces/SPACE/pages/123/Sample"⟩, []⟩,
        "", []⟩ rfl rfl⟩

/-! ## Claim C7: postprocess idempotence -/

/-- C7: `postprocessMarkdown` is not idempotent.  On a string whose
internal-link path spans a newline, the first pass leaves the nested-list
pattern hidden inside the link (so `fixNestedListSpacing` does not fire),
then `fixMarkdownLinks` — which runs after it — rewrites the link onto one
line and exposes the pattern; the second pass collapses the blank line,
yielding a different string. -/
theorem c7_postprocess_not_idempotent :
    postprocessMarkdown "t\n- a[x](/wiki/spaces/S/pages/1/q\nZ)\n\n  - b" =
        "t\n- a[x](confluence://pageId/1)\n\n  - b" ∧
    postprocessMarkdown
        (postprocessMarkdown "t\n- a[x](/wiki/spaces/S/pages/1/q\nZ)\n\n  - b") =
        "t\n- a[x](confluence://pageId/1)\n  - b" ∧
    postprocessMarkdown
        (postprocessMarkdown "t\n- a[x](/wiki/spaces/S/pages/1/q\nZ)\n\n  - b") ≠
      postprocessMarkdown "t\n- a[x](/wiki/spaces/S/pages/1/q\nZ)\n\n  - b" :=
  ⟨by decide, by decide, by decide⟩

/-! ## Claim C9: end-to-end image extraction -/

/-- C9 counterexample: with the self-closing image element of the claim,
the image regular expression (which requires an explicit `</ac:image>`
close tag) finds no match, so the converted document's image manifest is
empty rather than containing one reference. -/
theorem c9_self_closing_image_counterexample :
    (ConvertPage "images" ⟨fun _ => ("Hello World", none)⟩
        ⟨"123", "Sample Page", "SPACE", 1,
          ⟨⟨"<p>Hello World</p><ac:image ri:filename=\"diagram.png\"/>", ""⟩⟩,
          ⟨[]⟩, [], "", "", ⟨"", "", ""⟩, ⟨"", "", ""⟩⟩
        "https://x.atlassian.net").map (fun d => d.Images) = .ok [] := rfl

/-- C9 (amended): with the image element explicitly closed — the form the
repository's own converter test uses — converting the page yields a
document whose body is the engine's rendering (containing `Hello World`)
and whose manifest holds exactly one reference with origin URL
`https://x.atlassian.net/wiki/download/attachments/123/diagram.png`,
filename `diagram.png` and local path `images/diagram.png`. -/
theorem c9_image_extraction_amended :
    ∀ eng : MdEngine,
      (eng.run (preprocessCDATA
          "<p>Hello World</p><ac:image ri:filename=\"diagram.png\"></ac:image>")).1 =
        "Hello World" →
      ConvertPage "images" eng
          ⟨"123", "Sample Page", "SPACE", 1,
            ⟨⟨"<p>Hello World</p><ac:image ri:filename=\"diagram.png\"></ac:image>", ""⟩⟩,
            ⟨[]⟩, [], "", "", ⟨"", "", ""⟩, ⟨"", "", ""⟩⟩
          "https://x.atlassian.net" =
        .ok ⟨⟨"Sample Page", "", "", [],
            ⟨"123", "SPACE", 1,
              "https://x.atlassian.net/wiki/spaces/SPACE/pages/123/Sample%20Page"⟩, []⟩,
          "Hello World",
          [⟨"https://x.atlassian.net/wiki/download/attachments/123/diagram.png",
            "images/diagram.png", "diagram.png", "", 0⟩]⟩ := by
  intro eng h
  have hv : ConfluencePage.Validate
      ⟨"123", "Sample Page", "SPACE", 1,
        ⟨⟨"<p>Hello World</p><ac:image ri:filename=\"diagram.png\"></ac:image>", ""⟩⟩,
        ⟨[]⟩, [], "", "", ⟨"", "", ""⟩, ⟨"", "", ""⟩⟩ = .ok () := rfl
  have hd : NewMarkdownDocument
      ⟨"123", "Sample Page", "SPACE", 1,
        ⟨⟨"<p>Hello World</p><ac:image ri:filename=\"diagram.png\"></ac:image>", ""⟩⟩,
        ⟨[]⟩, [], "", "", ⟨"", "", ""⟩, ⟨"", "", ""⟩⟩ "https://x.atlassian.net" =
      .ok ⟨⟨"Sample Page", "", "", [],
          ⟨"123", "SPACE", 1,
            "https://x.atlassian.net/wiki/spaces/SPACE/pages/123/Sample%20Page"⟩, []⟩,
        "", []⟩ := rfl
  simp only [ConvertPage, hv, hd, convertHtml, h]
  rfl

theorem c9_image_extraction_amended_witness :
    ConvertPage "images" ⟨fun _ => ("Hello World", none)⟩
        ⟨"123", "Sample Page", "SPACE", 1,
          ⟨⟨"<p>Hello World</p><ac:image ri:filename=\"diagram.png\"></ac:image>", ""⟩⟩,
          ⟨[]⟩, [], "", "", ⟨"", "", ""⟩, ⟨"", "", ""⟩⟩
        "https://x.atlassian.net" =
      .ok ⟨⟨"Sample Page", "", "", [],
          ⟨"123", "SPACE", 1,
            "https://x.atlassian.net/wiki/spaces/SPACE/pages/123/Sample%20Page"⟩, []⟩,
        "Hello World",
        [⟨"https://x.atlassian.net/wiki/download/attachments/123/diagram.png",
          "images/diagram.png", "diagram.png", "", 0⟩]⟩ :=
  c9_image_extraction_amended ⟨fun _ => ("Hello World", none)⟩ rfl

/-! ## Claim C8: code-macro round trip

Scanning lemmas about `findSplit` over concatenations, used to evaluate
the extractors of `handleCodeMacro` on a macro node with symbolic
language and body. -/

theorem findSplit_cons (pat : List Char) (c : Char) (t : List Char) :
    findSplit pat (c :: t) =
      if pat.isPrefixOf (c :: t) then some ([], (c :: t).drop pat.length)
      else
        match findSplit pat t with
        | some (pre, post) => some (c :: pre, post)
        | none => none := rfl

theorem prefix_self_append (pat rest : List Char) : pat.isPrefixOf (pat ++ rest) = true := by
  induction pat with
  | nil => simp [List.isPrefixOf]
  | cons p pp ih => simpa [List.isPrefixOf] using ih

theorem findSplit_self (pat rest : List Char) (h : pat ≠ []) :
    findSplit pat (pat ++ rest) = some ([], rest) := by
  cases pat with
  | nil => exact absurd rfl h
  | cons p pp =>
    rw [List.cons_append, findSplit_cons, if_pos (by
      rw [← List.cons_append]; exact prefix_self_append (p :: pp) rest)]
    rw [← List.cons_append, List.drop_left]

theorem isPrefixOf_append_cases (pat suf ys : List Char)
    (h : pat.isPrefixOf (suf ++ ys) = true) :
    pat.isPrefixOf suf = true ∨
      (suf.isPrefixOf pat = true ∧ (pat.drop suf.length).isPrefixOf ys = true) := by
  induction pat generalizing suf with
  | nil => left; simp [List.isPrefixOf]
  | cons p pp ih =>
    cases suf with
    | nil =>
      right
      exact ⟨by simp [List.isPrefixOf], by simpa using h⟩
    | cons s ss =>
      rw [List.cons_append] at h
      simp only [List.isPrefixOf, Bool.and_eq_true] at h ⊢
      obtain ⟨hps, hrec⟩ := h
      rcases ih ss hrec with h1 | ⟨h2, h3⟩
      · exact Or.inl ⟨hps, h1⟩
      · right
        refine ⟨⟨?_, h2⟩, ?_⟩
        · rw [beq_iff_eq] at hps ⊢; exact hps.symm
        · simpa using h3

theorem findSplit_skip_core (pat xs ys : List Char)
    (h : ∀ k, k < xs.length → pat.isPrefixOf (xs.drop k ++ ys) = false) :
    findSplit pat (xs ++ ys) =
      (findSplit pat ys).map fun pr => (xs ++ pr.1, pr.2) := by
  induction xs with
  | nil =>
    cases hfs : findSplit pat ys with
    | none => simp [hfs]
    | some pr => cases pr; simp [hfs]
  | cons c cs ih =>
    rw [List.cons_append, findSplit_cons]
    have h0 : pat.isPrefixOf (c :: (cs ++ ys)) = false := by
      have := h 0 (by simp)
      simpa using this
    rw [if_neg (by simp [h0])]
    rw [ih fun k hk => by
      have := h (k + 1) (by simpa using Nat.succ_lt_succ hk)
      simpa using this]
    cases hfs : findSplit pat ys with
    | none => simp [hfs]
    | some pr => cases pr; simp [hfs]

theorem findSplit_skip_concrete (pat xs ys : List Char)
    (h1 : ∀ k, k < xs.length → pat.isPrefixOf (xs.drop k) = false)
    (h2 : ∀ k, k < xs.length → (xs.drop k).isPrefixOf pat = false) :
    findSplit pat (xs ++ ys) =
      (findSplit pat ys).map fun pr => (xs ++ pr.1, pr.2) := by
  apply findSplit_skip_core
  intro k hk
  by_contra hcon
  rw [Bool.not_eq_false] at hcon
  rcases isPrefixOf_append_cases _ _ _ hcon with hc | ⟨hc, _⟩
  · exact absurd hc (by simp [h1 k hk])
  · exact absurd hc (by simp [h2 k hk])

theorem findSplit_skip_ne_head (c₀ : Char) (pp xs ys : List Char)
    (hxs : ∀ c ∈ xs, c ≠ c₀) :
    findSplit (c₀ :: pp) (xs ++ ys) =
      (findSplit (c₀ :: pp) ys).map fun pr => (xs ++ pr.1, pr.2) := by
  apply findSplit_skip_core
  intro k hk
  have hne : xs.drop k ≠ [] := by
    intro hnil
    rw [List.drop_eq_nil_iff] at hnil
    omega
  cases hdk : xs.drop k with
  | nil => exact absurd hdk hne
  | cons d ds =>
    have hd : d ∈ xs := List.drop_subset k xs (hdk ▸ List.mem_cons_self d ds)
    rw [List.cons_append]
    simp [List.isPrefixOf, beq_eq_false_iff_ne, (hxs d hd).symm]

theorem no_infix_drops (pat : List Char) (hpat : pat ≠ []) :
    ∀ s : List Char, findSplit pat s = none → ∀ k, pat.isPrefixOf (s.drop k) = false
  | [], _, k => by
    cases pat with
    | nil => exact absurd rfl hpat
    | cons p pp => simp [List.isPrefixOf]
  | c :: cs, h, k => by
    rw [findSplit_cons] at h
    by_cases hp : pat.isPrefixOf (c :: cs) = true
    · rw [if_pos hp] at h
      exact absurd h (by simp)
    · have hrest : findSplit pat cs = none := by
        rw [if_neg hp] at h
        cases hfs : findSplit pat cs with
        | none => rfl
        | some pr =>
          rw [hfs] at h
          cases pr
          exact absurd h (by simp)
      cases k with
      | zero => simpa using Bool.not_eq_true _ ▸ hp
      | succ k => simpa using no_infix_drops pat hpat cs hrest k

theorem findSplit_skip_symbolic (pat xs ys : List Char) (hpat : pat ≠ [])
    (h1 : ∀ k, pat.isPrefixOf (xs.drop k) = false)
    (h2 : ∀ j, 1 ≤ j → j < pat.length → (pat.drop j).isPrefixOf ys = false) :
    findSplit pat (xs ++ ys) =
      (findSplit pat ys).map fun pr => (xs ++ pr.1, pr.2) := by
  apply findSplit_skip_core
  intro k hk
  by_contra hcon
  rw [Bool.not_eq_false] at hcon
  rcases isPrefixOf_append_cases _ _ _ hcon with hc | ⟨hc, hc2⟩
  · exact absurd hc (by simp [h1 k])
  · have hpre : xs.drop k <+: pat := by
      rw [← List.isPrefixOf_iff_prefix]
      exact hc
    have hlen : (xs.drop k).length ≤ pat.length := hpre.length_le
    have hpos : 1 ≤ (xs.drop k).length := by
      rw [List.length_drop]
      omega
    by_cases hj : (xs.drop k).length < pat.length
    · rw [h2 (xs.drop k).length hpos hj] at hc2
      exact absurd hc2 (by simp)
    · have heq : xs.drop k = pat := by
        apply List.IsPrefix.eq_of_length hpre
        omega
      have hself : pat.isPrefixOf pat = true := by
        have := prefix_self_append pat []
        rwa [List.append_nil] at this
      have hfalse := h1 k
      rw [heq, hself] at hfalse
      exact absurd hfalse (by simp)
def codeMacroNode (language body : String) : HtmlNode :=
  .elem "ac:structured-macro" [("ac:name", "code")]
    [.elem "ac:parameter" [("ac:name", "language")] [.text language],
     .elem "ac:plain-text-body" [] [.comment ("[CDATA[" ++ body ++ "]]")]]

theorem codeMacro_rawData (L B : String) :
    (htmlRender (codeMacroNode L B)).data =
      "<ac:structured-macro ac:name=\"code\">".data ++
        ("<ac:parameter ac:name=\"language\">".data ++
          ((escapeText L).data ++
            ("</ac:parameter>".data ++
              ("<ac:plain-text-body>".data ++
                ("<!--[CDATA[".data ++
                  (B.data ++
                    ("]]-->".data ++
                      ("</ac:plain-text-body>".data ++
                        "</ac:structured-macro>".data)))))))) := by
  simp [htmlRender, htmlRenderList, codeMacroNode, isVoidElem, escapeText, escapeChar,
    String.data_append]

theorem escapeChar_eq_self (c : Char)
    (h : c ≠ '&' ∧ c ≠ '\'' ∧ c ≠ '<' ∧ c ≠ '>' ∧ c ≠ '"') : escapeChar c = [c] := by
  obtain ⟨h1, h2, h3, h4, h5⟩ := h
  simp [escapeChar, h1, h2, h3, h4, h5]

theorem flatMap_escapeChar_eq_self (l : List Char)
    (h : ∀ c ∈ l, c ≠ '&' ∧ c ≠ '\'' ∧ c ≠ '<' ∧ c ≠ '>' ∧ c ≠ '"') :
    l.flatMap escapeChar = l := by
  induction l with
  | nil => simp
  | cons c cs ih =>
    rw [List.flatMap_cons, escapeChar_eq_self c (h c (List.mem_cons_self _ _)),
      ih fun d hd => h d (List.mem_cons_of_mem _ hd)]
    rfl

theorem escapeText_eq_self (L : String)
    (h : ∀ c ∈ L.data, c ≠ '&' ∧ c ≠ '\'' ∧ c ≠ '<' ∧ c ≠ '>' ∧ c ≠ '"') :
    escapeText L = L := by
  show (⟨L.data.flatMap escapeChar⟩ : String) = L
  rw [flatMap_escapeChar_eq_self L.data h]

theorem takeWhile_append_of_all (p : Char → Bool) (xs ys : List Char)
    (h : ∀ c ∈ xs, p c = true) :
    (xs ++ ys).takeWhile p = xs ++ ys.takeWhile p := by
  induction xs with
  | nil => simp
  | cons c cs ih =>
    rw [List.cons_append, List.takeWhile_cons, h c (List.mem_cons_self _ _),
      ih fun d hd => h d (List.mem_cons_of_mem _ hd)]
    rfl

theorem tryLangAt_param (w : List Char) :
    tryLangAt ("<ac:parameter ac:name=\"language\">".data ++ w) =
      (if w.takeWhile (· ≠ '<') ≠ [] ∧
          "</ac:parameter>".data.isPrefixOf (w.drop (w.takeWhile (· ≠ '<')).length) then
        some (w.takeWhile (· ≠ '<'))
      else none) := rfl

theorem findLang_eq_of_tryLang (c : Char) (t : List Char) (cap : List Char)
    (h : tryLangAt (c :: t) = some cap) : findLang (c :: t) = some cap := by
  simp [findLang, h]

theorem findLang_codeShape (Ld rest : List Char) (hLn : Ld ≠ [])
    (hL : ∀ c ∈ Ld, c ≠ '<') :
    findLang ("<ac:parameter ac:name=\"language\">".data ++
        (Ld ++ ("</ac:parameter>".data ++ rest))) = some Ld := by
  have htw : (Ld ++ ("</ac:parameter>".data ++ rest)).takeWhile (· ≠ '<') = Ld := by
    rw [takeWhile_append_of_all _ _ _ fun c hc => by simp [hL c hc]]
    rw [show ("</ac:parameter>".data ++ rest).takeWhile (fun c => decide (c ≠ '<')) = [] from rfl]
    rw [List.append_nil]
  have ht : tryLangAt ("<ac:parameter ac:name=\"language\">".data ++
      (Ld ++ ("</ac:parameter>".data ++ rest))) = some Ld := by
    rw [tryLangAt_param, htw]
    rw [List.drop_left]
    rw [if_pos ⟨hLn, prefix_self_append _ _⟩]
  exact findLang_eq_of_tryLang '<'
    ("ac:parameter ac:name=\"language\">".data ++ (Ld ++ ("</ac:parameter>".data ++ rest)))
    Ld ht

theorem findLang_skip_openMacro (t : List Char) :
    findLang ("<ac:structured-macro ac:name=\"code\">".data ++ t) = findLang t := rfl

theorem stripPre_append (pat : String) (t : List Char) :
    stripPre ⟨pat.data ++ t⟩ pat = ⟨t⟩ := by
  simp [stripPre, goStartsWith, prefix_self_append, List.drop_left]

theorem stripSuf_append (t : List Char) (pat : String) :
    stripSuf ⟨t ++ pat.data⟩ pat = ⟨t⟩ := by
  have hsuf : pat.data.isSuffixOf (t ++ pat.data) = true := by
    rw [List.isSuffixOf_iff_suffix]
    exact List.suffix_append t pat.data
  simp [stripSuf, goEndsWith, hsuf, List.take_left]

theorem stripPre_no (s pat : String) (h : goStartsWith s pat = false) :
    stripPre s pat = s := by
  simp [stripPre, h]

theorem stripSuf_no (s pat : String) (h : goEndsWith s pat = false) :
    stripSuf s pat = s := by
  simp [stripSuf, h]

theorem htmlUnescapeFuel_eq_self (fuel : Nat) (l : List Char) (h : '&' ∉ l) :
    htmlUnescapeFuel fuel l = l := by
  induction fuel generalizing l with
  | zero => rfl
  | succ fuel ih =>
    cases l with
    | nil => rfl
    | cons c cs =>
      have hc : c ≠ '&' := fun e => h (e ▸ List.mem_cons_self _ _)
      have hcs : '&' ∉ cs := fun m => h (List.mem_cons_of_mem _ m)
      simp only [htmlUnescapeFuel]
      rw [if_neg hc, ih cs hcs]

theorem htmlUnescapeChars_eq_self (l : List Char) (h : '&' ∉ l) :
    htmlUnescapeChars l = l := htmlUnescapeFuel_eq_self l.length l h

theorem extractPTBC_codeMacro (L B raw : String) :
    extractPlainTextBodyContent (codeMacroNode L B) raw = extractCodeContent raw := by
  simp [extractPlainTextBodyContent, findFirst, findFirstList, codeMacroNode,
    HtmlNode.isElemNamed]

theorem findSplit_openTag_skip_lang (xs ys : List Char) (hxs : ∀ c ∈ xs, c ≠ '<') :
    findSplit "<ac:plain-text-body>".data (xs ++ ys) =
      (findSplit "<ac:plain-text-body>".data ys).map fun pr => (xs ++ pr.1, pr.2) :=
  findSplit_skip_ne_head '<' "ac:plain-text-body>".data xs ys hxs

theorem findSplit_open_codeShape (Ld R : List Char) (hL : ∀ c ∈ Ld, c ≠ '<') :
    findSplit "<ac:plain-text-body>".data
      ("<ac:structured-macro ac:name=\"code\">".data ++
        ("<ac:parameter ac:name=\"language\">".data ++
          (Ld ++ ("</ac:parameter>".data ++ ("<ac:plain-text-body>".data ++ R))))) =
      some ("<ac:structured-macro ac:name=\"code\">".data ++
        ("<ac:parameter ac:name=\"language\">".data ++
          (Ld ++ ("</ac:parameter>".data ++ []))), R) := by
  rw [findSplit_skip_concrete _ _ _ (by decide) (by decide)]
  rw [findSplit_skip_concrete _ _ _ (by decide) (by decide)]
  rw [findSplit_openTag_skip_lang _ _ hL]
  rw [findSplit_skip_concrete _ _ _ (by decide) (by decide)]
  rw [findSplit_self _ _ (by decide)]
  rfl

theorem findSplit_close_codeShape (Bd : List Char)
    (hB : findSplit "</ac:plain-text-body>".data Bd = none) :
    findSplit "</ac:plain-text-body>".data
      ("<!--[CDATA[".data ++ (Bd ++ ("]]-->".data ++
        ("</ac:plain-text-body>".data ++ "</ac:structured-macro>".data)))) =
      some ("<!--[CDATA[".data ++ (Bd ++ ("]]-->".data ++ [])),
        "</ac:structured-macro>".data) := by
  rw [findSplit_skip_concrete _ _ _ (by decide) (by decide)]
  rw [findSplit_skip_symbolic _ Bd _ (by decide)
    (no_infix_drops _ (by decide) Bd hB) (by decide)]
  rw [findSplit_skip_concrete _ _ _ (by decide) (by decide)]
  rw [findSplit_self _ _ (by decide)]
  rfl

theorem extractCodeContent_codeShape (Ld : List Char) (B : String)
    (hL : ∀ c ∈ Ld, c ≠ '<')
    (hclose : findSplit "</ac:plain-text-body>".data B.data = none)
    (hamp : '&' ∉ B.data)
    (hcdata : goStartsWith B "<![CDATA[" = false)
    (hend : goEndsWith B "]]>" = false) :
    extractCodeContent ⟨"<ac:structured-macro ac:name=\"code\">".data ++
      ("<ac:parameter ac:name=\"language\">".data ++
        (Ld ++ ("</ac:parameter>".data ++
          ("<ac:plain-text-body>".data ++
            ("<!--[CDATA[".data ++
              (B.data ++
                ("]]-->".data ++
                  ("</ac:plain-text-body>".data ++
                    "</ac:structured-macro>".data))))))))⟩ = B := by
  have hampfull : '&' ∉ ("<!--[CDATA[".data ++ (B.data ++ "]]-->".data)) := by
    intro h
    rcases List.mem_append.mp h with h | h
    · exact absurd h (by decide)
    · rcases List.mem_append.mp h with h | h
      · exact hamp h
      · exact absurd h (by decide)
  simp only [extractCodeContent]
  rw [findSplit_open_codeShape Ld _ hL]
  dsimp only
  rw [findSplit_close_codeShape B.data hclose]
  dsimp only
  rw [List.append_nil]
  rw [htmlUnescapeChars_eq_self _ hampfull]
  rw [stripPre_append "<!--[CDATA[" (B.data ++ "]]-->".data)]
  rw [stripSuf_append B.data "]]-->"]
  rw [show (⟨B.data⟩ : String) = B from rfl]
  rw [stripPre_no B _ hcdata, stripSuf_no B _ hend]

/-- C8 (amended): for a code structured-macro whose language parameter L is
non-empty and free of markup-significant characters, and whose CDATA body B
contains no ampersand, no literal close tag of the plain-text body, no
backtick, and is not itself wrapped in a raw CDATA marker, handleCodeMacro
produces exactly the fenced block with opening fence directly followed by L
and B verbatim between the fences. -/
theorem c8_code_macro_round_trip_amended (L B : String)
    (hLne : L ≠ "")
    (hLchars : ∀ c ∈ L.data, c ≠ '&' ∧ c ≠ '\'' ∧ c ≠ '<' ∧ c ≠ '>' ∧ c ≠ '"')
    (hBamp : '&' ∉ B.data)
    (hBclose : goContains B "</ac:plain-text-body>" = false)
    (hBcdata : goStartsWith B "<![CDATA[" = false)
    (hBend : goEndsWith B "]]>" = false)
    (hBtick : Char.ofNat 96 ∉ B.data) :
    handleCodeMacro (codeMacroNode L B) =
      "```" ++ L ++ "\n" ++ B ++ "\n```\n" := by
  have hesc : escapeText L = L := escapeText_eq_self L hLchars
  have hLlt : ∀ c ∈ L.data, c ≠ '<' := fun c hc => (hLchars c hc).2.2.1
  have hLd : L.data ≠ [] := by
    intro h
    apply hLne
    cases L
    simp_all
  have hclose : findSplit "</ac:plain-text-body>".data B.data = none := by
    cases hfs : findSplit "</ac:plain-text-body>".data B.data with
    | none => rfl
    | some v =>
      rw [goContains, containsSub, hfs] at hBclose
      simp at hBclose
  have hraw : (htmlRender (codeMacroNode L B)).data =
      "<ac:structured-macro ac:name=\"code\">".data ++
        ("<ac:parameter ac:name=\"language\">".data ++
          (L.data ++ ("</ac:parameter>".data ++
            ("<ac:plain-text-body>".data ++
              ("<!--[CDATA[".data ++
                (B.data ++
                  ("]]-->".data ++
                    ("</ac:plain-text-body>".data ++
                      "</ac:structured-macro>".data)))))))) := by
    rw [codeMacro_rawData, hesc]
  have hrawS : htmlRender (codeMacroNode L B) =
      ⟨"<ac:structured-macro ac:name=\"code\">".data ++
        ("<ac:parameter ac:name=\"language\">".data ++
          (L.data ++ ("</ac:parameter>".data ++
            ("<ac:plain-text-body>".data ++
              ("<!--[CDATA[".data ++
                (B.data ++
                  ("]]-->".data ++
                    ("</ac:plain-text-body>".data ++
                      "</ac:structured-macro>".data))))))))⟩ := by
    rw [← hraw]
  have hlang : extractLanguageParameter (htmlRender (codeMacroNode L B)) = L := by
    simp only [extractLanguageParameter]
    rw [hraw, findLang_skip_openMacro, findLang_codeShape L.data _ hLd hLlt]
  have hcode : extractCodeContent (htmlRender (codeMacroNode L B)) = B := by
    rw [hrawS]
    exact extractCodeContent_codeShape L.data B hLlt hclose hBamp hBcdata hBend
  simp only [handleCodeMacro, extractPTBC_codeMacro, hlang, hcode, ite_self]
  rw [if_pos hLne]

/-- C8 (counterexample): a code macro whose CDATA body is the literal text
x &amp; y does not round-trip: entity unescaping inside extractCodeContent
rewrites the body to x & y before the fences are assembled. -/
theorem c8_code_macro_entity_counterexample :
    handleCodeMacro (codeMacroNode "go" "x &amp; y") = "```go\nx & y\n```\n" ∧
      ("x &amp; y" : String) ≠ "x & y" := by
  constructor
  · rfl
  · decide

theorem c8_code_macro_round_trip_amended_witness :
    handleCodeMacro (codeMacroNode "go" "fmt.Println(\"ok\")") =
      "```go\nfmt.Println(\"ok\")\n```\n" :=
  c8_code_macro_round_trip_amended "go" "fmt.Println(\"ok\")" (by decide) (by decide)
    (by decide) (by decide) (by decide) (by decide) (by decide)

end ConfluenceMd
